

import Mathlib

/-
  Verification of the ACCC merger-tracker core components:
  event reconciliation (scripts/extract_mergers.py), phase/determination
  resolution (scripts/generate_static_data.py), determination normalization
  (scripts/normalization.py), the business-day calendar
  (scripts/generate_static_data.py and merger-tracker/backend/business_days.py)
  and the retention cutoff evaluator (scripts/cutoff.py).

  Modelling conventions:
  - Python strings are Lean Strings; substring membership, startswith, replace
    and strip are implemented on the character-list view so that they compute
    in the kernel.
  - A Python dict field that may be missing is an Option; an absent key and a
    null value are both modelled as none.
  - Machine integers are Int (Python ints are unbounded).
  - Functions that can let a Python exception escape return Except PyErr.
-/

/- ## String helpers (Python str semantics) -/

set_option maxRecDepth 10000 in
/-- Does the needle occur at the head of the haystack. -/
def listIsPrefix : List Char → List Char → Bool
  | [], _ => true
  | _ :: _, [] => false
  | a :: as, b :: bs => a == b && listIsPrefix as bs

/-- Substring occurrence test on character lists (Python `needle in hay`). -/
def listHasSub (needle : List Char) : List Char → Bool
  | [] => listIsPrefix needle []
  | c :: cs => listIsPrefix needle (c :: cs) || listHasSub needle cs

/-- Python `sub in s` for a nonempty needle. -/
def pyContains (s sub : String) : Bool := listHasSub sub.toList s.toList

/-- Python `s.startswith(p)`. -/
def pyStartsWith (s p : String) : Bool := listIsPrefix p.toList s.toList

/-- Python `s.replace(old, new)` on lists, left to right, non-overlapping;
the old text is nonempty in every use in the sources. The Nat argument is
fuel (initially the length of the list) making the recursion structural so
that it evaluates in the kernel. -/
def listReplaceGo (old new : List Char) : Nat → List Char → List Char
  | 0, l => l
  | _ + 1, [] => []
  | fuel + 1, c :: cs =>
    if listIsPrefix old (c :: cs) && !old.isEmpty then
      new ++ listReplaceGo old new fuel ((c :: cs).drop old.length)
    else
      c :: listReplaceGo old new fuel cs

/-- Python `s.replace(old, new)`. -/
def pyReplace (s old new : String) : String :=
  String.mk (listReplaceGo old.toList new.toList s.toList.length s.toList)

/-- ASCII whitespace, as stripped by Python `str.strip()` on the data at hand. -/
def isSpc (c : Char) : Bool := c == ' ' || c == '\t' || c == '\n' || c == '\r'

/-- Python `s.strip()`. -/
def pyStrip (s : String) : String :=
  String.mk (((s.toList.dropWhile isSpc).reverse.dropWhile isSpc).reverse)

/- ## scripts/normalization.py -/

/-- `normalize_determination` from scripts/normalization.py: returns none for
an empty input (Python returns None for falsy input), removes every occurrence
of "ACCC Determination", strips whitespace, then matches the exact-cased
substrings in priority order. -/
def normalize_determination (determination : String) : Option String :=
  if determination.isEmpty then none
  else
    let d := pyStrip (pyReplace determination "ACCC Determination" "")
    if pyContains d "Not approved" || pyContains d "not approved" then
      some "Not approved"
    else if pyContains d "Approved" || pyContains d "approved" then
      some "Approved"
    else if pyContains d "Declined" || pyContains d "declined" then
      some "Declined"
    else if pyContains d "Not opposed" || pyContains d "not opposed" then
      some "Not opposed"
    else some d

/- ## Data model

An Event models one event dict of a merger record (scripts/extract_mergers.py
and scripts/generate_static_data.py). A missing key is modelled as none.
Keys not consulted by the reconciler or resolver (url_gh, the parsed
determination payload) are omitted. -/

structure Event where
  date : String
  title : String
  display_title : Option String := none
  url : Option String := none
  status : Option String := none
  phase : Option String := none
deriving DecidableEq

/-- A merger record; only the fields consulted by the reconciler, resolver and
cutoff evaluator are modelled (anzsic_codes and commentary, which the resolver
copies through untouched, are omitted). -/
structure MergerRec where
  merger_id : Option String := none
  stage : Option String := none
  accc_determination : Option String := none
  determination_publication_date : Option String := none
  effective_notification_datetime : Option String := none
  events : List Event := []
  is_waiver : Option Bool := none
  phase_1_determination : Option String := none
  phase_1_determination_date : Option String := none
  phase_2_determination : Option String := none
  phase_2_determination_date : Option String := none
  public_benefits_determination : Option String := none
  public_benefits_determination_date : Option String := none
deriving DecidableEq

/-- Python truthiness of an optional string (None and "" are falsy). -/
def truthy : Option String → Bool
  | none => false
  | some s => !s.isEmpty

/- ## Event reconciler (scripts/extract_mergers.py, parse_merger_file) -/

/-- Insert into a Python dict modelled as an association list: replacing a
present key keeps its position, a new key is appended (insertion order). -/
def dictInsert (d : List (String × Event)) (k : String) (v : Event) :
    List (String × Event) :=
  if d.any (fun p => p.1 == k) then
    d.map (fun p => if p.1 == k then (k, v) else p)
  else d ++ [(k, v)]

/-- Python dict lookup. -/
def dictGet (d : List (String × Event)) (k : String) : Option Event :=
  (d.find? (fun p => p.1 == k)).map (fun p => p.2)

/-- The `scraped_by_url` dict: url-keyed scraped events in insertion order. -/
def scraped_by_url (scraped : List Event) : List (String × Event) :=
  scraped.foldl
    (fun d e => match e.url with
      | some u => dictInsert d u e
      | none => d) []

/-- The `scraped_without_url` list. -/
def scraped_without_url (scraped : List Event) : List Event :=
  scraped.filter (fun e => e.url.isNone)

/-- Find and remove the first list entry satisfying p (Python
`next(...)` followed by `list.remove` of the found, mutated object). -/
def extractFirst (p : Event → Bool) : List Event → Option (Event × List Event)
  | [] => none
  | e :: es =>
    if p e then some (e, es)
    else (extractFirst p es).map (fun r => (r.1, e :: r.2))

/-- `event['display_title'] = event['title']` when the key is missing. -/
def defaultDisplay (e : Event) : Event :=
  if e.display_title.isNone then { e with display_title := some e.title } else e

/-- Result of the loop over `existing_events`: the merged entries, the
`existing_urls_processed` set, the remaining `scraped_without_url` pool, and
the post-state of the caller's `existing_events` entries (the loop mutates
vanished url events and unmatched url-less events in place). -/
structure GoResult where
  out : List Event
  used : List String
  pool : List Event
  after : List Event
deriving DecidableEq

/-- The loop over `existing_events` in parse_merger_file. -/
def mergeGo (byUrl : List (String × Event)) : List Event → List Event → GoResult
  | pool, [] => ⟨[], [], pool, []⟩
  | pool, e :: rest =>
    match e.url with
    | some u =>
      match dictGet byUrl u with
      | some sev =>
        let updated := if e.display_title.isSome then
          { sev with display_title := e.display_title } else sev
        let r := mergeGo byUrl pool rest
        ⟨updated :: r.out, u :: r.used, r.pool, e :: r.after⟩
      | none =>
        let em := { e with status := some "removed" }
        let r := mergeGo byUrl pool rest
        ⟨em :: r.out, r.used, r.pool, em :: r.after⟩
    | none =>
      match extractFirst (fun s => s.title == e.title) pool with
      | some (sev, pool2) =>
        let sev2 := if e.display_title.isSome then
            { sev with display_title := e.display_title }
          else if sev.display_title.isNone then
            { sev with display_title := some sev.title }
          else sev
        let r := mergeGo byUrl pool2 rest
        ⟨sev2 :: r.out, r.used, r.pool, e :: r.after⟩
      | none =>
        let e2 := defaultDisplay e
        let r := mergeGo byUrl pool rest
        ⟨e2 :: r.out, r.used, r.pool, e2 :: r.after⟩

/-- The merged event list before synthetic-event insertion: the processed
existing entries, then unconsumed url-keyed scraped events in dict order, then
remaining url-less scraped events with display_title defaulted. -/
def mergeEvents (scraped existing : List Event) : List Event :=
  let byUrl := scraped_by_url scraped
  let r := mergeGo byUrl (scraped_without_url scraped) existing
  r.out ++ (byUrl.filter (fun p => !r.used.contains p.1)).map (fun p => p.2)
    ++ r.pool.map defaultDisplay

/-- Post-state of the caller's `existing_events` list after the merge loop
(the loop writes status = "removed" and defaulted display_title in place). -/
def existingAfterMerge (scraped existing : List Event) : List Event :=
  (mergeGo (scraped_by_url scraped) (scraped_without_url scraped) existing).after

def notificationTitle : String := "Merger notified to ACCC"

/-- Synthetic notification event insertion (parse_merger_file). -/
def addNotification (m : MergerRec) (events : List Event) : List Event :=
  if truthy m.effective_notification_datetime then
    if events.any (fun e => e.title == notificationTitle) then events
    else events ++ [{ date := m.effective_notification_datetime.getD "",
                      title := notificationTitle,
                      display_title := some notificationTitle }]
  else events

/-- Title of the synthetic determination event:
`f"{phase} determination: {determination}"`. -/
def determinationTitle (m : MergerRec) : String :=
  m.stage.getD "Phase 1" ++ " determination: " ++
    m.accc_determination.getD "Decision made"

/-- The predicate of the old-format cleanup filter in parse_merger_file:
keep events that do not have an old-format title with the matter's
determination publication date. -/
def detKeep (m : MergerRec) (e : Event) : Bool :=
  !(pyStartsWith e.title "Determination published:" &&
    (e.date == m.determination_publication_date.getD ""))

/-- Synthetic determination event insertion (parse_merger_file): first removes
old-format events (title starting "Determination published:" with the same
date), then appends the new-format event unless its title is present. -/
def addDetermination (m : MergerRec) (events : List Event) : List Event :=
  if truthy m.determination_publication_date then
    let dd := m.determination_publication_date.getD ""
    let dt := determinationTitle m
    let filtered := events.filter (detKeep m)
    if filtered.any (fun e => e.title == dt) then filtered
    else filtered ++ [{ date := dd, title := dt, display_title := some dt }]
  else events

/-- The reconciler: merge of a scraped snapshot against prior events followed
by synthetic notification/determination insertion (parse_merger_file, the
branch where existing events are present). -/
def reconcile (m : MergerRec) (scraped existing : List Event) : List Event :=
  addDetermination m (addNotification m (mergeEvents scraped existing))

/- ## Phase/determination resolver (scripts/generate_static_data.py) -/

/-- `extract_phase_from_event`: phase tag from an event title. -/
def extract_phase_from_event (t : String) : Option String :=
  if t.isEmpty then none
  else if pyContains t "Phase 1" then some "Phase 1"
  else if pyContains t "Phase 2" then some "Phase 2"
  else if pyContains t "Public Benefits" || pyContains t "public benefits" then
    some "Public Benefits"
  else if pyContains t "Waiver" || pyContains t "waiver" then some "Waiver"
  else if pyContains t "notified" then some "Phase 1"
  else none

/-- `is_waiver_merger` (identical in scripts/cutoff.py and
scripts/generate_static_data.py). -/
def is_waiver_merger (m : MergerRec) : Bool :=
  pyStartsWith (m.merger_id.getD "") "WA-" || pyContains (m.stage.getD "") "Waiver"

/-- The first event whose title contains "subject to Phase 2 review". -/
def referralEvent (events : List Event) : Option Event :=
  events.find? (fun e => pyContains e.title "subject to Phase 2 review")

/-- Which determination bucket the direct pair is assigned to: 1, 2, 3 for
phase 1 / phase 2 / public benefits, 0 for none. -/
def directBucket (det : Option String) (m : MergerRec) : Nat :=
  if truthy det && truthy m.determination_publication_date then
    if pyContains (m.stage.getD "Phase 1") "Phase 1" then 1
    else if pyContains (m.stage.getD "Phase 1") "Phase 2" then 2
    else if pyContains (m.stage.getD "Phase 1") "Public" ||
            pyContains (m.stage.getD "Phase 1") "Benefits" then 3
    else 0
  else 0

/-- Phase tagging pass over the events (in Python this writes into the input
record's event dicts through the shallow copy). -/
def tagEvents (events : List Event) : List Event :=
  events.map (fun e =>
    if e.phase.isNone then { e with phase := extract_phase_from_event e.title }
    else e)

/-- `enrich_merger` (commentary handling omitted: it only attaches an opaque
payload). Note the direct determination pair is assigned after the event scan
and overwrites the event-derived phase-1 value when its bucket is phase 1. -/
def enrich_merger (merger : MergerRec) : MergerRec :=
  let det := merger.accc_determination.bind normalize_determination
  let refEv := referralEvent merger.events
  let b := directBucket det merger
  { merger with
    accc_determination := det
    is_waiver := some (is_waiver_merger merger)
    phase_1_determination :=
      if b = 1 then det else refEv.map (fun _ => "Referred to phase 2")
    phase_1_determination_date :=
      if b = 1 then merger.determination_publication_date
      else refEv.map (fun e => e.date)
    phase_2_determination := if b = 2 then det else none
    phase_2_determination_date :=
      if b = 2 then merger.determination_publication_date else none
    public_benefits_determination := if b = 3 then det else none
    public_benefits_determination_date :=
      if b = 3 then merger.determination_publication_date else none
    events := tagEvents merger.events }

/-- The in-place writes the merge loop performs on an existing entry. -/
def mutationRel (e a : Event) : Prop :=
  a = e ∨ a = { e with status := some "removed" } ∨
    a = { e with display_title := some e.title }

/- ## Claim C1: retention lemmas -/

/-- Events agreeing on the identity fields the determination filter reads. -/
def idLike (x y : Event) : Prop := x.title = y.title ∧ x.date = y.date

/-- An event that the synthetic-determination step physically removes:
old-format title and the matter's determination publication date. -/
def oldFormatFiltered (m : MergerRec) (e : Event) : Bool :=
  truthy m.determination_publication_date &&
  pyStartsWith e.title "Determination published:" &&
  (e.date == m.determination_publication_date.getD "")

/-- The fold building `scraped_by_url` (named for induction). -/
def byUrlStep (d : List (String × Event)) (e : Event) : List (String × Event) :=
  match e.url with
  | some u => dictInsert d u e
  | none => d

/-- Keys of a url dict are distinct. -/
def keysNodup (d : List (String × Event)) : Prop := (d.map (fun p => p.1)).Nodup

/-- The synthetic notification event. -/
def notifEvent (m : MergerRec) : Event :=
  { date := m.effective_notification_datetime.getD ""
    title := notificationTitle
    display_title := some notificationTitle }

/-- The synthetic determination event. -/
def detEvent (m : MergerRec) : Event :=
  { date := m.determination_publication_date.getD ""
    title := determinationTitle m
    display_title := some (determinationTitle m) }

/-- The cleanup filter as actually applied: the determination filter when the
determination date is truthy, and no filtering otherwise. -/
def effKeep (m : MergerRec) (e : Event) : Bool :=
  if truthy m.determination_publication_date then detKeep m e else true

/- ## Dates and datetimes (modelling the Python datetime library subset the
sources use; proleptic Gregorian calendar, Python floor division) -/

def isLeap (y : Int) : Bool := (y % 4 == 0 && y % 100 != 0) || y % 400 == 0

def daysInMonth (y m : Int) : Int :=
  if m = 1 then 31 else if m = 2 then (if isLeap y then 29 else 28)
  else if m = 3 then 31 else if m = 4 then 30 else if m = 5 then 31
  else if m = 6 then 30 else if m = 7 then 31 else if m = 8 then 31
  else if m = 9 then 30 else if m = 10 then 31 else if m = 11 then 30
  else 31

def daysBeforeMonth (m : Int) (leap : Bool) : Int :=
  (if m = 1 then 0 else if m = 2 then 31 else if m = 3 then 59
   else if m = 4 then 90 else if m = 5 then 120 else if m = 6 then 151
   else if m = 7 then 181 else if m = 8 then 212 else if m = 9 then 243
   else if m = 10 then 273 else if m = 11 then 304 else 334)
  + (if leap && decide (3 ≤ m) then 1 else 0)

/-- A Python date (the date part of a datetime). -/
structure PyDate where
  y : Int
  m : Int
  d : Int
deriving DecidableEq

def validDate (dt : PyDate) : Bool :=
  1 ≤ dt.y && 1 ≤ dt.m && dt.m ≤ 12 && 1 ≤ dt.d && dt.d ≤ daysInMonth dt.y dt.m

/-- The proleptic Gregorian ordinal (date.toordinal; 0001-01-01 is day 1).
Divisions are truncating, which agrees with Python floor division since a
valid date has 1 ≤ y. -/
def toOrdinal (dt : PyDate) : Int :=
  365 * (dt.y - 1) + (dt.y - 1) / 4 - (dt.y - 1) / 100
    + (dt.y - 1) / 400 + daysBeforeMonth dt.m (isLeap dt.y) + dt.d

/-- Python date.weekday(): Monday is 0. -/
def pyWeekday (dt : PyDate) : Int := (toOrdinal dt + 6) % 7

/-- The next calendar day (date + timedelta(days=1)). -/
def succDate (dt : PyDate) : PyDate :=
  if dt.d < daysInMonth dt.y dt.m then ⟨dt.y, dt.m, dt.d + 1⟩
  else if dt.m < 12 then ⟨dt.y, dt.m + 1, 1⟩
  else ⟨dt.y + 1, 1, 1⟩

def addDays : PyDate → Nat → PyDate
  | dt, 0 => dt
  | dt, n + 1 => addDays (succDate dt) n

/-- A Python datetime: a date, seconds within the day, and an optional
utcoffset in minutes (none = timezone-naive). -/
structure PyDateTime where
  date : PyDate
  secs : Int
  tz : Option Int
deriving DecidableEq

/-- The single Python exception kind the modelled code can let escape. -/
inductive PyErr where
  | typeError
deriving DecidableEq

/-- Naive timeline position in seconds (wall-clock reading). -/
def naiveSecs (t : PyDateTime) : Int := 86400 * toOrdinal t.date + t.secs

/-- Python datetime comparison: naive pairs compare wall clocks, aware pairs
compare instants, mixed pairs raise TypeError. -/
def pyLeDT (a b : PyDateTime) : Except PyErr Bool :=
  match a.tz, b.tz with
  | none, none => .ok (decide (naiveSecs a ≤ naiveSecs b))
  | some ta, some tb => .ok (decide (naiveSecs a - 60 * ta ≤ naiveSecs b - 60 * tb))
  | _, _ => .error .typeError

/-- Python datetime subtraction in seconds (b - a requires matching
awareness; mixed pairs raise TypeError). -/
def pySubDT (b a : PyDateTime) : Except PyErr Int :=
  match b.tz, a.tz with
  | none, none => .ok (naiveSecs b - naiveSecs a)
  | some tb, some ta => .ok ((naiveSecs b - 60 * tb) - (naiveSecs a - 60 * ta))
  | _, _ => .error .typeError

/-- datetime + timedelta(days=1) (wall clock advances one day, tz kept). -/
def addOneDay (t : PyDateTime) : PyDateTime := { t with date := succDate t.date }

/- ## Calendar functions (generate_static_data.py and backend/business_days.py) -/

/-- `is_christmas_new_year_period`: 23 Dec through 10 Jan, month/day only. -/
def is_christmas_new_year_period (dt : PyDate) : Bool :=
  (dt.m == 12 && 23 ≤ dt.d) || (dt.m == 1 && dt.d ≤ 10)

def digitChar (k : Int) : Char := Char.ofNat (48 + k.toNat)

/-- strftime zero-padded two digits. -/
def pad2 (n : Int) : List Char := [digitChar (n / 10), digitChar (n % 10)]

/-- strftime zero-padded four digits (years here are at most 9999). -/
def pad4 (n : Int) : List Char :=
  [digitChar (n / 1000), digitChar (n / 100 % 10), digitChar (n / 10 % 10),
   digitChar (n % 10)]

/-- date.strftime('%Y-%m-%d'). -/
def fmtYMD (dt : PyDate) : String :=
  String.mk (pad4 dt.y ++ '-' :: pad2 dt.m ++ '-' :: pad2 dt.d)

def digitVal (c : Char) : Int := (c.toNat : Int) - 48

def digitsToInt (l : List Char) : Int :=
  l.foldl (fun acc c => 10 * acc + digitVal c) 0

/-- strptime('%Y-%m-%d'): 1-4 digit year, 1-2 digit month and day, full
match, then the datetime constructor's range checks. -/
def parseYMD (s : String) : Option PyDate :=
  let l := s.toList
  let ys := l.takeWhile Char.isDigit
  let r1 := l.dropWhile Char.isDigit
  if ys.length < 1 || 4 < ys.length then none else
  match r1 with
  | '-' :: r2 =>
    let ms := r2.takeWhile Char.isDigit
    let r3 := r2.dropWhile Char.isDigit
    if ms.length < 1 || 2 < ms.length then none else
    match r3 with
    | '-' :: r4 =>
      let ds := r4.takeWhile Char.isDigit
      let r5 := r4.dropWhile Char.isDigit
      if ds.length < 1 || 2 < ds.length || !r5.isEmpty then none else
      let dt : PyDate := ⟨digitsToInt ys, digitsToInt ms, digitsToInt ds⟩
      if validDate dt && dt.y ≤ 9999 then some dt else none
    | _ => none
  | _ => none

/-- datetime.fromisoformat (pre-3.11 subset used by the repository's data):
"YYYY-MM-DD", optionally followed by a "T" or space separator and
"HH:MM[:SS]", optionally followed by a "+HH:MM" or "-HH:MM" offset.
Fractional seconds are not modelled. -/
def fromisoformat (s : String) : Option PyDateTime :=
  match s.toList with
  | y1 :: y2 :: y3 :: y4 :: '-' :: m1 :: m2 :: '-' :: d1 :: d2 :: rest =>
    if !(y1.isDigit && y2.isDigit && y3.isDigit && y4.isDigit &&
         m1.isDigit && m2.isDigit && d1.isDigit && d2.isDigit) then none else
    let dt : PyDate := ⟨digitsToInt [y1, y2, y3, y4], digitsToInt [m1, m2],
                        digitsToInt [d1, d2]⟩
    if !(validDate dt && dt.y ≤ 9999) then none else
    match rest with
    | [] => some ⟨dt, 0, none⟩
    | sep :: h1 :: h2 :: ':' :: mi1 :: mi2 :: rest2 =>
      if !((sep == 'T' || sep == ' ') && h1.isDigit && h2.isDigit &&
           mi1.isDigit && mi2.isDigit) then none else
      let hh := digitsToInt [h1, h2]
      let mm := digitsToInt [mi1, mi2]
      if !(hh ≤ 23 && mm ≤ 59) then none else
      let parseTail : Int → List Char → Option PyDateTime := fun secs r =>
        match r with
        | [] => some ⟨dt, secs, none⟩
        | sg :: o1 :: o2 :: ':' :: o3 :: o4 :: [] =>
          if !((sg == '+' || sg == '-') && o1.isDigit && o2.isDigit &&
               o3.isDigit && o4.isDigit) then none else
          let oh := digitsToInt [o1, o2]
          let om := digitsToInt [o3, o4]
          if !(oh ≤ 23 && om ≤ 59) then none else
          some ⟨dt, secs, some (if sg == '-' then -(60 * oh + om)
                                else 60 * oh + om)⟩
        | _ => none
      match rest2 with
      | ':' :: s1 :: s2 :: rest3 =>
        if s1.isDigit && s2.isDigit && digitsToInt [s1, s2] ≤ 59 then
          parseTail (3600 * hh + 60 * mm + digitsToInt [s1, s2]) rest3
        else none
      | _ => parseTail (3600 * hh + 60 * mm) rest2
    | _ => none
  | _ => none

/-- `datetime.fromisoformat(s.replace('Z', '+00:00'))` as used by both
calculate_business_days implementations and calculate_calendar_days. -/
def pyFromIsoZ (s : String) : Option PyDateTime :=
  fromisoformat (pyReplace s "Z" "+00:00")

/-- Python max of two dates compared by ordinal (max(a, b) is b when a < b). -/
def dateMax (a b : PyDate) : PyDate := if toOrdinal a < toOrdinal b then b else a

/-- Python min of two dates compared by ordinal (min(a, b) is b when b < a). -/
def dateMin (a b : PyDate) : PyDate := if toOrdinal b < toOrdinal a then b else a

/-- is_business_day from both calendar modules: not a weekend, not in the
23 Dec - 10 Jan closure, and the %Y-%m-%d string is not a listed holiday.
The loaded PUBLIC_HOLIDAYS set is passed as the list hol. -/
def is_business_day (hol : List String) (dt : PyDate) : Bool :=
  if pyWeekday dt == 5 || pyWeekday dt == 6 then false
  else if is_christmas_new_year_period dt then false
  else if hol.contains (fmtYMD dt) then false
  else true

/-- _count_weekdays_in_range from scripts/generate_static_data.py: closed-form
count of Mon-Fri days in [s, e]; divmod on the nonnegative total agrees with
truncating Int division. -/
def count_weekdays_in_range (s e : PyDate) : Int :=
  if toOrdinal s > toOrdinal e then 0
  else
    let total := toOrdinal e - toOrdinal s + 1
    5 * (total / 7) +
      ((List.range (total % 7).toNat).countP
        (fun i : Nat => decide ((pyWeekday s + (i : Int)) % 7 < 5)) : Int)

/-- Python range(a, b) over Int. -/
def intRange (a b : Int) : List Int :=
  (List.range (b - a).toNat).map (fun i : Nat => a + (i : Int))

/-- One iteration of the closure-window loop of calculate_business_days:
weekdays of [max(Dec 23 of year, s), min(Jan 10 of year+1, e)] when that
overlap is nonempty. -/
def xmasOverlapCount (s e : PyDate) (year : Int) : Int :=
  let ovS := dateMax ⟨year, 12, 23⟩ s
  let ovE := dateMin ⟨year + 1, 1, 10⟩ e
  if toOrdinal ovS ≤ toOrdinal ovE then count_weekdays_in_range ovS ovE else 0

/-- One iteration of the holiday loop of calculate_business_days: 1 when the
parsed holiday lies in [s, e] on a weekday outside the closure window. -/
def holidayTerm (s e : PyDate) (h : PyDate) : Int :=
  if toOrdinal s ≤ toOrdinal h && toOrdinal h ≤ toOrdinal e &&
     pyWeekday h < 5 && !is_christmas_new_year_period h then 1 else 0

/-- calculate_business_days from scripts/generate_static_data.py (the
closed-form implementation). Falsy input gives None; parse failures give
None via the except clause, as do datetime(year, 12, 23) constructions
outside Python's year range 1..9999 and unparsable holiday strings (both
raise ValueError inside the try). Times and tzinfo are stripped before
comparing, so only the parsed dates matter. -/
def calculate_business_days_static (sd ed : Option String) (hol : List String) :
    Option Int :=
  if !(truthy sd && truthy ed) then none else
  match pyFromIsoZ (sd.getD "") with
  | none => none
  | some sdt =>
    match pyFromIsoZ (ed.getD "") with
    | none => none
    | some edt =>
      let s := sdt.date
      let e := edt.date
      if toOrdinal s > toOrdinal e then some 0
      else if (intRange (s.y - 1) (e.y + 1)).any
          (fun year => decide (year < 1 || 9999 < year + 1)) then none
      else if hol.any (fun hs => (parseYMD hs).isNone) then none
      else
        let bd := count_weekdays_in_range s e
          - ((intRange (s.y - 1) (e.y + 1)).map (xmasOverlapCount s e)).sum
          - (hol.map (fun hs =>
              match parseYMD hs with
              | some hd => holidayTerm s e hd
              | none => 0)).sum
        some (max bd 0)

/-- calculate_calendar_days from scripts/generate_static_data.py:
(end - start).days, where timedelta days round toward minus infinity; the
except clause catches only ValueError and AttributeError, so the TypeError
of a mixed aware/naive subtraction escapes. -/
def calculate_calendar_days (sd ed : Option String) : Except PyErr (Option Int) :=
  if !(truthy sd && truthy ed) then .ok none else
  match pyFromIsoZ (sd.getD "") with
  | none => .ok none
  | some sdt =>
    match pyFromIsoZ (ed.getD "") with
    | none => .ok none
    | some edt =>
      match pySubDT edt sdt with
      | .ok secs => .ok (some (Int.fdiv secs 86400))
      | .error er => .error er

/-- The while loop of backend calculate_business_days
(merger-tracker/backend/business_days.py): scan from cur one day at a time
while cur <= e (a comparison that raises TypeError on mixed awareness,
uncaught since the except clause names only ValueError and AttributeError),
counting business days. The Nat argument bounds the iterations to make the
recursion structural; the caller passes toOrdinal e.date - toOrdinal s.date + 2,
which exceeds the number of iterations of the Python loop for every input the
caller can produce (both times are zeroed and parsed utcoffsets are under a
day, so the loop stops at latest one day past e). -/
def scanGo (hol : List String) (e : PyDateTime) : Nat → PyDateTime → Except PyErr Int
  | 0, cur =>
    match pyLeDT cur e with
    | .error er => .error er
    | .ok _ => .ok 0
  | fuel + 1, cur =>
    match pyLeDT cur e with
    | .error er => .error er
    | .ok false => .ok 0
    | .ok true =>
      match scanGo hol e fuel (addOneDay cur) with
      | .error er => .error er
      | .ok n => .ok ((if is_business_day hol cur.date then 1 else 0) + n)

/-- calculate_business_days from merger-tracker/backend/business_days.py:
parses both strings, zeroes the time but KEEPS tzinfo, then scans day by
day. A mixed aware/naive pair makes the loop comparison raise TypeError. -/
def backend_calculate_business_days (sd ed : Option String) (hol : List String) :
    Except PyErr (Option Int) :=
  if !(truthy sd && truthy ed) then .ok none else
  match pyFromIsoZ (sd.getD "") with
  | none => .ok none
  | some sdt =>
    match pyFromIsoZ (ed.getD "") with
    | none => .ok none
    | some edt =>
      let s : PyDateTime := ⟨sdt.date, 0, sdt.tz⟩
      let e : PyDateTime := ⟨edt.date, 0, edt.tz⟩
      match scanGo hol e (toOrdinal e.date - toOrdinal s.date + 2).toNat s with
      | .error er => .error er
      | .ok n => .ok (some n)

/-- The specification's day-by-day count: business days among the dates
s, s+1, ..., e (empty when e < s). -/
def specBusinessCount (hol : List String) (s e : PyDate) : Int :=
  ((List.range (toOrdinal e - toOrdinal s + 1).toNat).countP
    (fun i : Nat => is_business_day hol (addDays s i)) : Int)

/-- Python s.endswith(p). -/
def pyEndsWith (s p : String) : Bool := listIsPrefix p.toList.reverse s.toList.reverse

/-- parse_iso_datetime from scripts/date_utils.py: falsy input gives None;
a string containing 'T' goes to fromisoformat (with Z replaced by +00:00
when it ends in Z); otherwise strptime('%Y-%m-%d'); any parse error gives
None. -/
def parse_iso_datetime (ds : Option String) : Option PyDateTime :=
  if !truthy ds then none else
  let s := ds.getD ""
  if pyContains s "T" then
    if pyEndsWith s "Z" then fromisoformat (pyReplace s "Z" "+00:00")
    else fromisoformat s
  else
    (parseYMD s).map (fun d => PyDateTime.mk d 0 none)

/-- datetime + timedelta(weeks=w): the wall clock advances 7*w days, the
tzinfo is kept. -/
def addWeeks (t : PyDateTime) (w : Nat) : PyDateTime :=
  { t with date := addDays t.date (7 * w) }

/-- get_cutoff_date from scripts/cutoff.py: None without a parsable
determination_publication_date; determination date plus cutoff_weeks weeks
for a waiver matter, or for an ordinary matter whose stored
accc_determination field is exactly the string 'Approved'. -/
def get_cutoff_date (m : MergerRec) (cutoff_weeks : Nat) : Option PyDateTime :=
  match parse_iso_datetime m.determination_publication_date with
  | none => none
  | some dd =>
    if is_waiver_merger m then some (addWeeks dd cutoff_weeks)
    else if m.accc_determination.getD "" == "Approved" then
      some (addWeeks dd cutoff_weeks)
    else none

/-- Python a > b on datetimes (strictly greater; TypeError on mixed
awareness). -/
def pyGtDT (a b : PyDateTime) : Except PyErr Bool :=
  match a.tz, b.tz with
  | none, none => .ok (decide (naiveSecs b < naiveSecs a))
  | some ta, some tb =>
    .ok (decide (naiveSecs b - 60 * tb < naiveSecs a - 60 * ta))
  | _, _ => .error .typeError

/-- should_skip_merger from scripts/cutoff.py, with the reference datetime
an explicit argument (the datetime.now() default is outside the model).
When exactly one of cutoff and reference is aware, the aware side has its
tzinfo stripped before the comparison. -/
def should_skip_merger (m : MergerRec) (reference : PyDateTime)
    (cutoff_weeks : Nat) : Except PyErr Bool :=
  match get_cutoff_date m cutoff_weeks with
  | none => .ok false
  | some cd =>
    let p : PyDateTime × PyDateTime :=
      if cd.tz.isSome && reference.tz.isNone then ({ cd with tz := none }, reference)
      else if !cd.tz.isSome && reference.tz.isSome then
        (cd, { reference with tz := none })
      else (cd, reference)
    pyGtDT p.2 p.1

/-- The comparison should_skip_merger effectively performs once awareness is
aligned: instants when both sides are aware, wall clocks otherwise. -/
def refAfterCutoff (reference cd : PyDateTime) : Bool :=
  match cd.tz, reference.tz with
  | some tc, some tr => decide (naiveSecs cd - 60 * tc < naiveSecs reference - 60 * tr)
  | _, _ => decide (naiveSecs cd < naiveSecs reference)

def c2m : MergerRec :=
  { merger_id := some "WA-1"
    stage := some ""
    accc_determination := some "Declined"
    determination_publication_date := some "2025-01-15T12:00:00Z" }

def c2ma : MergerRec :=
  { merger_id := some "MN-1"
    stage := some "Phase 1"
    accc_determination := some "ACCC Determination Approved"
    determination_publication_date := some "2025-01-15" }

/-- Every holiday string is in canonical %Y-%m-%d form: it parses and
formatting the parse reproduces the string (true of the committed
act-public-holidays.json data). -/
def canonicalHolidays (hol : List String) : Bool :=
  hol.all (fun h => match parseYMD h with
    | some hd => fmtYMD hd == h
    | none => false)

/-! ### Theorems -/

/- ## Claim C8 -/

/-- Claim C8 counterexample: the claim says matching is case-insensitive, so
"NOT APPROVED" would normalize to "Not approved"; the code matches only the
exact casings "Not approved" and "not approved" and passes "NOT APPROVED"
through unchanged. -/
theorem c8_counterexample_not_case_insensitive :
    normalize_determination "NOT APPROVED" = some "NOT APPROVED" ∧
    normalize_determination "NOT APPROVED" ≠ some "Not approved" := by
  constructor
  · decide
  · decide

/-- Claim C8 (amended): after removing every occurrence of
"ACCC Determination" and stripping whitespace, the code matches the two exact
casings of each keyword as substrings, in the priority order
not approved, approved, declined, not opposed, and passes unmatched stripped
text through; in particular normalize("Not approved") is "Not approved" and
never "Approved". -/
theorem c8_normalize_priority_order :
    (∀ s : String, s.isEmpty = false →
      ((pyContains (pyStrip (pyReplace s "ACCC Determination" "")) "Not approved" = true ∨
        pyContains (pyStrip (pyReplace s "ACCC Determination" "")) "not approved" = true) →
        normalize_determination s = some "Not approved") ∧
      (pyContains (pyStrip (pyReplace s "ACCC Determination" "")) "Not approved" = false →
       pyContains (pyStrip (pyReplace s "ACCC Determination" "")) "not approved" = false →
       (pyContains (pyStrip (pyReplace s "ACCC Determination" "")) "Approved" = true ∨
        pyContains (pyStrip (pyReplace s "ACCC Determination" "")) "approved" = true) →
        normalize_determination s = some "Approved") ∧
      (pyContains (pyStrip (pyReplace s "ACCC Determination" "")) "Not approved" = false →
       pyContains (pyStrip (pyReplace s "ACCC Determination" "")) "not approved" = false →
       pyContains (pyStrip (pyReplace s "ACCC Determination" "")) "Approved" = false →
       pyContains (pyStrip (pyReplace s "ACCC Determination" "")) "approved" = false →
       (pyContains (pyStrip (pyReplace s "ACCC Determination" "")) "Declined" = true ∨
        pyContains (pyStrip (pyReplace s "ACCC Determination" "")) "declined" = true) →
        normalize_determination s = some "Declined") ∧
      (pyContains (pyStrip (pyReplace s "ACCC Determination" "")) "Not approved" = false →
       pyContains (pyStrip (pyReplace s "ACCC Determination" "")) "not approved" = false →
       pyContains (pyStrip (pyReplace s "ACCC Determination" "")) "Approved" = false →
       pyContains (pyStrip (pyReplace s "ACCC Determination" "")) "approved" = false →
       pyContains (pyStrip (pyReplace s "ACCC Determination" "")) "Declined" = false →
       pyContains (pyStrip (pyReplace s "ACCC Determination" "")) "declined" = false →
       (pyContains (pyStrip (pyReplace s "ACCC Determination" "")) "Not opposed" = true ∨
        pyContains (pyStrip (pyReplace s "ACCC Determination" "")) "not opposed" = true) →
        normalize_determination s = some "Not opposed") ∧
      (pyContains (pyStrip (pyReplace s "ACCC Determination" "")) "Not approved" = false →
       pyContains (pyStrip (pyReplace s "ACCC Determination" "")) "not approved" = false →
       pyContains (pyStrip (pyReplace s "ACCC Determination" "")) "Approved" = false →
       pyContains (pyStrip (pyReplace s "ACCC Determination" "")) "approved" = false →
       pyContains (pyStrip (pyReplace s "ACCC Determination" "")) "Declined" = false →
       pyContains (pyStrip (pyReplace s "ACCC Determination" "")) "declined" = false →
       pyContains (pyStrip (pyReplace s "ACCC Determination" "")) "Not opposed" = false →
       pyContains (pyStrip (pyReplace s "ACCC Determination" "")) "not opposed" = false →
        normalize_determination s = some (pyStrip (pyReplace s "ACCC Determination" "")))) ∧
    normalize_determination "Not approved" = some "Not approved" ∧
    normalize_determination "Not approved" ≠ some "Approved" := by
  refine ⟨fun s hs => ⟨?_, ?_, ?_, ?_, ?_⟩, by decide, by decide⟩
  · intro h
    rcases h with h | h <;>
      simp [normalize_determination, hs, h]
  · intro h1 h2 h3
    rcases h3 with h3 | h3 <;>
      simp [normalize_determination, hs, h1, h2, h3]
  · intro h1 h2 h3 h4 h5
    rcases h5 with h5 | h5 <;>
      simp [normalize_determination, hs, h1, h2, h3, h4, h5]
  · intro h1 h2 h3 h4 h5 h6 h7
    rcases h7 with h7 | h7 <;>
      simp [normalize_determination, hs, h1, h2, h3, h4, h5, h6, h7]
  · intro h1 h2 h3 h4 h5 h6 h7 h8
    simp [normalize_determination, hs, h1, h2, h3, h4, h5, h6, h7, h8]

/-- Claim C8 witness: instantiates the amended theorem at "Not approved". -/
theorem c8_normalize_priority_order_witness :
    normalize_determination "Not approved" = some "Not approved" :=
  (c8_normalize_priority_order.1 "Not approved" (by decide)).1 (Or.inl (by decide))

/- ## Claims C6 and C7 -/

/-- Claim C6 counterexample: a matter with a "subject to Phase 2 review"
event and also a direct determination pair whose stage contains "Phase 1":
the direct pair overwrites the event-derived value, so phase_1_determination
is "Approved", not "Referred to phase 2" as the claim requires. -/
theorem c6_counterexample_direct_pair_overwrites :
    (enrich_merger
      { stage := some "Phase 1 - initial assessment"
        accc_determination := some "Approved"
        determination_publication_date := some "2025-01-15T12:00:00Z"
        events := [{ date := "2025-01-10T12:00:00Z"
                     title := "Merger subject to Phase 2 review" }] }
      ).phase_1_determination = some "Approved" ∧
    (enrich_merger
      { stage := some "Phase 1 - initial assessment"
        accc_determination := some "Approved"
        determination_publication_date := some "2025-01-15T12:00:00Z"
        events := [{ date := "2025-01-10T12:00:00Z"
                     title := "Merger subject to Phase 2 review" }] }
      ).phase_1_determination ≠ some "Referred to phase 2" := by
  constructor
  · decide
  · decide

/-- Claim C6 (amended): when some event title contains
"subject to Phase 2 review", the resolver sets phase_1_determination to
"Referred to phase 2" with the first such event's date, unless the matter's
direct determination pair is itself assigned to the phase-1 bucket
(normalized determination and determination date both present and the stage
containing "Phase 1"), in which case the direct pair overwrites the
event-derived value. -/
theorem c6_referral_sets_phase1 (m : MergerRec) (ev : Event)
    (href : referralEvent m.events = some ev)
    (hnot : directBucket (m.accc_determination.bind normalize_determination) m ≠ 1) :
    (enrich_merger m).phase_1_determination = some "Referred to phase 2" ∧
    (enrich_merger m).phase_1_determination_date = some ev.date := by
  simp only [enrich_merger, href, if_neg hnot, Option.map_some]
  exact ⟨rfl, rfl⟩

/-- Claim C6 witness: a matter with a referral event and no direct
determination pair. -/
theorem c6_referral_sets_phase1_witness :
    (enrich_merger
      { events := [{ date := "2025-01-10", title := "Merger subject to Phase 2 review" }] }
      ).phase_1_determination = some "Referred to phase 2" :=
  (c6_referral_sets_phase1
    { events := [{ date := "2025-01-10", title := "Merger subject to Phase 2 review" }] }
    { date := "2025-01-10", title := "Merger subject to Phase 2 review" }
    (by decide) (by decide)).1

/-- Claim C7 counterexample: stage matching is case-sensitive and a stage
matching no keyword assigns no bucket at all: with stage
"phase 1 - initial assessment" (lower case) and a determination pair present,
all three determination slots stay empty, though the claim requires a
case-insensitive match to assign exactly one (the phase-1) bucket. -/
theorem c7_counterexample_case_sensitive :
    (enrich_merger
      { stage := some "phase 1 - initial assessment"
        accc_determination := some "Approved"
        determination_publication_date := some "2025-01-15" }
      ).phase_1_determination = none ∧
    (enrich_merger
      { stage := some "phase 1 - initial assessment"
        accc_determination := some "Approved"
        determination_publication_date := some "2025-01-15" }
      ).phase_2_determination = none ∧
    (enrich_merger
      { stage := some "phase 1 - initial assessment"
        accc_determination := some "Approved"
        determination_publication_date := some "2025-01-15" }
      ).public_benefits_determination = none := by
  refine ⟨by decide, by decide, by decide⟩

/-- Claim C7 (amended): for a matter with both a normalized determination and
a determination date and no phase-2 referral event, the pair is assigned by
case-sensitive substring match of the stage (defaulted to "Phase 1" when the
field is absent) in the order "Phase 1", "Phase 2", "Public"/"Benefits"; at
most one bucket is assigned, and a stage matching no keyword assigns none. -/
theorem c7_bucket_assignment (m : MergerRec)
    (href : referralEvent m.events = none)
    (hdet : truthy (m.accc_determination.bind normalize_determination) = true)
    (hdd : truthy m.determination_publication_date = true) :
    (pyContains (m.stage.getD "Phase 1") "Phase 1" = true →
      (enrich_merger m).phase_1_determination =
        m.accc_determination.bind normalize_determination ∧
      (enrich_merger m).phase_1_determination_date = m.determination_publication_date ∧
      (enrich_merger m).phase_2_determination = none ∧
      (enrich_merger m).phase_2_determination_date = none ∧
      (enrich_merger m).public_benefits_determination = none ∧
      (enrich_merger m).public_benefits_determination_date = none) ∧
    (pyContains (m.stage.getD "Phase 1") "Phase 1" = false →
     pyContains (m.stage.getD "Phase 1") "Phase 2" = true →
      (enrich_merger m).phase_2_determination =
        m.accc_determination.bind normalize_determination ∧
      (enrich_merger m).phase_2_determination_date = m.determination_publication_date ∧
      (enrich_merger m).phase_1_determination = none ∧
      (enrich_merger m).phase_1_determination_date = none ∧
      (enrich_merger m).public_benefits_determination = none ∧
      (enrich_merger m).public_benefits_determination_date = none) ∧
    (pyContains (m.stage.getD "Phase 1") "Phase 1" = false →
     pyContains (m.stage.getD "Phase 1") "Phase 2" = false →
     (pyContains (m.stage.getD "Phase 1") "Public" = true ∨
      pyContains (m.stage.getD "Phase 1") "Benefits" = true) →
      (enrich_merger m).public_benefits_determination =
        m.accc_determination.bind normalize_determination ∧
      (enrich_merger m).public_benefits_determination_date =
        m.determination_publication_date ∧
      (enrich_merger m).phase_1_determination = none ∧
      (enrich_merger m).phase_1_determination_date = none ∧
      (enrich_merger m).phase_2_determination = none ∧
      (enrich_merger m).phase_2_determination_date = none) ∧
    (pyContains (m.stage.getD "Phase 1") "Phase 1" = false →
     pyContains (m.stage.getD "Phase 1") "Phase 2" = false →
     pyContains (m.stage.getD "Phase 1") "Public" = false →
     pyContains (m.stage.getD "Phase 1") "Benefits" = false →
      (enrich_merger m).phase_1_determination = none ∧
      (enrich_merger m).phase_1_determination_date = none ∧
      (enrich_merger m).phase_2_determination = none ∧
      (enrich_merger m).phase_2_determination_date = none ∧
      (enrich_merger m).public_benefits_determination = none ∧
      (enrich_merger m).public_benefits_determination_date = none) := by
  refine ⟨?_, ?_, ?_, ?_⟩
  · intro h1
    simp [enrich_merger, directBucket, hdet, hdd, href, h1]
  · intro h1 h2
    simp [enrich_merger, directBucket, hdet, hdd, href, h1, h2]
  · intro h1 h2 h3
    rcases h3 with h3 | h3 <;>
      simp [enrich_merger, directBucket, hdet, hdd, href, h1, h2, h3]
  · intro h1 h2 h3 h4
    simp [enrich_merger, directBucket, hdet, hdd, href, h1, h2, h3, h4]

/-- Claim C7 witness: a matter in stage "Phase 2 - review" with an approved
determination lands in the phase-2 bucket. -/
theorem c7_bucket_assignment_witness :
    (enrich_merger
      { stage := some "Phase 2 - review"
        accc_determination := some "Approved"
        determination_publication_date := some "2025-01-15" }
      ).phase_2_determination = some "Approved" := by
  have h := (c7_bucket_assignment
    { stage := some "Phase 2 - review"
      accc_determination := some "Approved"
      determination_publication_date := some "2025-01-15" }
    (by decide) (by decide) (by decide)).2.1 (by decide) (by decide)
  exact h.1.trans (by decide)

/- ## Claim C10 -/

/-- Claim C10 counterexample: the merge loop writes status = "removed" into
the caller's existing event in place, and enrich_merger's shallow copy shares
the event dicts with its input, into which the phase tag is written; neither
function leaves its input's event records unmodified. -/
theorem c10_counterexample_in_place_writes :
    existingAfterMerge []
      [{ date := "d", title := "t", url := some "u", status := some "live" }] ≠
      [{ date := "d", title := "t", url := some "u", status := some "live" }] ∧
    (enrich_merger
      { events := [{ date := "d", title := "Phase 1 determination" }] }).events ≠
      [{ date := "d", title := "Phase 1 determination" }] := by
  constructor
  · decide
  · decide

/-- Unfolding lemma: merge loop on an existing event whose url is matched. -/
theorem mergeGo_cons_hit (byUrl : List (String × Event)) (pool : List Event)
    (e : Event) (rest : List Event) (u : String) (sev : Event)
    (h1 : e.url = some u) (h2 : dictGet byUrl u = some sev) :
    mergeGo byUrl pool (e :: rest) =
      ⟨(if e.display_title.isSome then { sev with display_title := e.display_title }
          else sev) :: (mergeGo byUrl pool rest).out,
       u :: (mergeGo byUrl pool rest).used,
       (mergeGo byUrl pool rest).pool,
       e :: (mergeGo byUrl pool rest).after⟩ := by
  simp only [mergeGo, h1, h2]

/-- Unfolding lemma: merge loop on an existing event whose url vanished. -/
theorem mergeGo_cons_removed (byUrl : List (String × Event)) (pool : List Event)
    (e : Event) (rest : List Event) (u : String)
    (h1 : e.url = some u) (h2 : dictGet byUrl u = none) :
    mergeGo byUrl pool (e :: rest) =
      ⟨{ e with status := some "removed" } :: (mergeGo byUrl pool rest).out,
       (mergeGo byUrl pool rest).used,
       (mergeGo byUrl pool rest).pool,
       { e with status := some "removed" } :: (mergeGo byUrl pool rest).after⟩ := by
  simp only [mergeGo, h1, h2]

/-- Unfolding lemma: merge loop on a url-less existing event with a title
match in the pool. -/
theorem mergeGo_cons_consume (byUrl : List (String × Event)) (pool : List Event)
    (e : Event) (rest : List Event) (sev : Event) (pool2 : List Event)
    (h1 : e.url = none)
    (h2 : extractFirst (fun s => s.title == e.title) pool = some (sev, pool2)) :
    mergeGo byUrl pool (e :: rest) =
      ⟨(if e.display_title.isSome then { sev with display_title := e.display_title }
         else if sev.display_title.isNone then
           { sev with display_title := some sev.title }
         else sev) :: (mergeGo byUrl pool2 rest).out,
       (mergeGo byUrl pool2 rest).used,
       (mergeGo byUrl pool2 rest).pool,
       e :: (mergeGo byUrl pool2 rest).after⟩ := by
  simp only [mergeGo, h1, h2]

/-- Unfolding lemma: merge loop on a url-less existing event with no title
match in the pool. -/
theorem mergeGo_cons_keep (byUrl : List (String × Event)) (pool : List Event)
    (e : Event) (rest : List Event)
    (h1 : e.url = none)
    (h2 : extractFirst (fun s => s.title == e.title) pool = none) :
    mergeGo byUrl pool (e :: rest) =
      ⟨defaultDisplay e :: (mergeGo byUrl pool rest).out,
       (mergeGo byUrl pool rest).used,
       (mergeGo byUrl pool rest).pool,
       defaultDisplay e :: (mergeGo byUrl pool rest).after⟩ := by
  simp only [mergeGo, h1, h2]

/-- After the merge loop, each existing entry is unchanged, or has
status = "removed" written into it, or has display_title defaulted. -/
theorem mergeGo_after_rel (byUrl : List (String × Event)) (existing : List Event) :
    ∀ pool, List.Forall₂ mutationRel existing (mergeGo byUrl pool existing).after := by
  induction existing with
  | nil => intro pool; simp [mergeGo]
  | cons e rest ih =>
    intro pool
    cases hu : e.url with
    | some u =>
      cases hg : dictGet byUrl u with
      | some sev =>
        rw [mergeGo_cons_hit byUrl pool e rest u sev hu hg]
        refine List.Forall₂.cons ?_ (ih pool)
        exact Or.inl rfl
      | none =>
        rw [mergeGo_cons_removed byUrl pool e rest u hu hg]
        refine List.Forall₂.cons ?_ (ih pool)
        exact Or.inr (Or.inl rfl)
    | none =>
      cases hx : extractFirst (fun s => s.title == e.title) pool with
      | some pr =>
        rw [mergeGo_cons_consume byUrl pool e rest pr.1 pr.2 hu hx]
        refine List.Forall₂.cons ?_ (ih pr.2)
        exact Or.inl rfl
      | none =>
        rw [mergeGo_cons_keep byUrl pool e rest hu hx]
        refine List.Forall₂.cons ?_ (ih pool)
        by_cases hd : e.display_title.isNone = true
        · exact Or.inr (Or.inr (by simp [defaultDisplay, hd]))
        · exact Or.inl (by simp [defaultDisplay, hd])

/-- Claim C10 (amended): the reconciler and resolver are deterministic but not
frame-pure; the merge loop's in-place writes to the caller's existing entries
are exactly status-removal marking and display_title defaulting, and the
resolver's shallow copy shares its events with the input, into which it writes
only the phase tag of events that lacked one. -/
theorem c10_mutations_are_bounded :
    (∀ scraped existing : List Event,
      List.Forall₂ mutationRel existing (existingAfterMerge scraped existing)) ∧
    (∀ m : MergerRec, (enrich_merger m).events = tagEvents m.events ∧
      List.Forall₂
        (fun e a => a = e ∨ a = { e with phase := extract_phase_from_event e.title })
        m.events (tagEvents m.events)) := by
  constructor
  · intro scraped existing
    exact mergeGo_after_rel _ existing _
  · intro m
    refine ⟨rfl, ?_⟩
    rw [tagEvents, List.forall₂_map_right_iff]
    rw [List.forall₂_same]
    intro e _
    by_cases hp : e.phase.isNone = true
    · exact Or.inr (by simp [hp])
    · exact Or.inl (by simp [hp])

theorem oldFormatFiltered_of_idLike {m : MergerRec} {x y : Event}
    (h : idLike x y) : oldFormatFiltered m x = oldFormatFiltered m y := by
  simp only [oldFormatFiltered, h.1, h.2]

theorem mem_dictInsert {d : List (String × Event)} {k : String} {v : Event}
    {p : String × Event} (h : p ∈ dictInsert d k v) : p = (k, v) ∨ p ∈ d := by
  unfold dictInsert at h
  by_cases ha : d.any (fun p => p.1 == k) = true
  · rw [if_pos ha] at h
    obtain ⟨q, hq, hqe⟩ := List.mem_map.mp h
    by_cases hk : q.1 == k
    · rw [if_pos hk] at hqe; exact Or.inl hqe.symm
    · rw [if_neg hk] at hqe; exact Or.inr (hqe ▸ hq)
  · rw [if_neg ha] at h
    rcases List.mem_append.mp h with h | h
    · exact Or.inr h
    · exact Or.inl (List.mem_singleton.mp h)

theorem key_mem_dictInsert {d : List (String × Event)} {k : String} {v : Event}
    {u : String} (h : ∃ p ∈ d, p.1 = u) : ∃ p ∈ dictInsert d k v, p.1 = u := by
  obtain ⟨p, hp, hpu⟩ := h
  unfold dictInsert
  by_cases ha : d.any (fun p => p.1 == k) = true
  · rw [if_pos ha]
    by_cases hk : p.1 == k
    · exact ⟨(k, v), List.mem_map.mpr ⟨p, hp, by rw [if_pos hk]⟩,
        by simp only [← hpu]; exact (eq_of_beq hk).symm⟩
    · exact ⟨p, List.mem_map.mpr ⟨p, hp, by rw [if_neg hk]⟩, hpu⟩
  · rw [if_neg ha]
    exact ⟨p, List.mem_append_left _ hp, hpu⟩

theorem key_mem_dictInsert_self (d : List (String × Event)) (k : String) (v : Event) :
    ∃ p ∈ dictInsert d k v, p.1 = k := by
  unfold dictInsert
  by_cases ha : d.any (fun p => p.1 == k) = true
  · rw [if_pos ha]
    obtain ⟨q, hq, hqk⟩ := List.any_eq_true.mp ha
    exact ⟨(k, v), List.mem_map.mpr ⟨q, hq, by rw [if_pos hqk]⟩, rfl⟩
  · rw [if_neg ha]
    exact ⟨(k, v), List.mem_append_right _ (List.mem_singleton.mpr rfl), rfl⟩

theorem scraped_by_url_eq_fold (scraped : List Event) :
    scraped_by_url scraped = scraped.foldl byUrlStep [] := rfl

theorem byUrlFold_mem : ∀ (l : List Event) (d : List (String × Event))
    (p : String × Event), p ∈ l.foldl byUrlStep d →
    (p.2 ∈ l ∧ p.2.url = some p.1) ∨ p ∈ d := by
  intro l
  induction l with
  | nil => intro d p h; exact Or.inr h
  | cons e rest ih =>
    intro d p h
    rcases ih (byUrlStep d e) p h with h1 | h1
    · exact Or.inl ⟨List.mem_cons_of_mem _ h1.1, h1.2⟩
    · unfold byUrlStep at h1
      cases hu : e.url with
      | some u =>
        rw [hu] at h1
        rcases mem_dictInsert h1 with h2 | h2
        · exact Or.inl ⟨by rw [h2]; exact List.mem_cons_self _ _,
            by rw [h2]; exact hu⟩
        · exact Or.inr h2
      | none => rw [hu] at h1; exact Or.inr h1

theorem mem_scraped_by_url {scraped : List Event} {p : String × Event}
    (h : p ∈ scraped_by_url scraped) : p.2 ∈ scraped ∧ p.2.url = some p.1 := by
  rcases byUrlFold_mem scraped [] p h with h1 | h1
  · exact h1
  · exact absurd h1 (List.not_mem_nil p)

theorem dictGet_some_mem {d : List (String × Event)} {u : String} {sev : Event}
    (h : dictGet d u = some sev) : (u, sev) ∈ d := by
  unfold dictGet at h
  obtain ⟨p, hp, hpe⟩ := Option.map_eq_some.mp h
  have hmem := List.mem_of_find?_eq_some hp
  have hkey := List.find?_some hp
  obtain ⟨p1, p2⟩ := p
  simp only at hpe hkey
  rw [← eq_of_beq hkey, ← hpe]
  exact hmem

theorem dictGet_isSome_of_key {d : List (String × Event)} {u : String}
    (h : ∃ p ∈ d, p.1 = u) : (dictGet d u).isSome := by
  obtain ⟨p, hp, hpu⟩ := h
  unfold dictGet
  cases hf : d.find? (fun p => p.1 == u) with
  | some q => simp
  | none =>
    have := List.find?_eq_none.mp hf p hp
    simp [hpu] at this

theorem byUrlFold_key_preserved : ∀ (l : List Event) (d : List (String × Event))
    (u : String), (∃ p ∈ d, p.1 = u) → ∃ p ∈ l.foldl byUrlStep d, p.1 = u := by
  intro l
  induction l with
  | nil => intro d u h; exact h
  | cons b rest ih =>
    intro d u h
    refine ih (byUrlStep d b) u ?_
    unfold byUrlStep
    cases hb : b.url with
    | some v => exact key_mem_dictInsert h
    | none => exact h

theorem byUrlFold_key : ∀ (l : List Event) (d : List (String × Event))
    (u : String) (e : Event), e ∈ l → e.url = some u →
    ∃ p ∈ l.foldl byUrlStep d, p.1 = u := by
  intro l
  induction l with
  | nil => intro d u e h; exact absurd h (List.not_mem_nil e)
  | cons a rest ih =>
    intro d u e h hu
    rcases List.mem_cons.mp h with h | h
    · subst h
      refine byUrlFold_key_preserved rest (byUrlStep d e) u ?_
      unfold byUrlStep
      rw [hu]
      exact key_mem_dictInsert_self d u e
    · exact ih (byUrlStep d a) u e h hu

theorem dictGet_scraped_none {scraped : List Event} {u : String}
    (h : ∀ s ∈ scraped, s.url ≠ some u) :
    dictGet (scraped_by_url scraped) u = none := by
  cases hg : dictGet (scraped_by_url scraped) u with
  | none => rfl
  | some sev =>
    have hm := mem_scraped_by_url (dictGet_some_mem hg)
    exact absurd hm.2 (h sev hm.1)

theorem extractFirst_mem_sublist {p : Event → Bool} :
    ∀ {l : List Event} {e : Event} {l2 : List Event},
    extractFirst p l = some (e, l2) → e ∈ l ∧ p e = true ∧ l2.Sublist l := by
  intro l
  induction l with
  | nil => intro e l2 h; exact Option.noConfusion h
  | cons a rest ih =>
    intro e l2 h
    unfold extractFirst at h
    by_cases hp : p a = true
    · rw [if_pos hp] at h
      injection h with h
      injection h with h1 h2
      subst h1; subst h2
      exact ⟨List.mem_cons_self _ _, hp, List.sublist_cons_self a rest⟩
    · rw [if_neg hp] at h
      cases hx : extractFirst p rest with
      | none => rw [hx] at h; exact Option.noConfusion h
      | some pr =>
        obtain ⟨e2, l3⟩ := pr
        rw [hx] at h
        rw [Option.map_some'] at h
        injection h with h
        injection h with h1 h2
        obtain ⟨hm, hpe, hs⟩ := ih hx
        subst h1
        refine ⟨List.mem_cons_of_mem _ hm, hpe, ?_⟩
        rw [← h2]
        exact hs.cons₂ a

theorem extractFirst_none {p : Event → Bool} :
    ∀ {l : List Event}, extractFirst p l = none → ∀ x ∈ l, p x = false := by
  intro l
  induction l with
  | nil => intro _ x hx; exact absurd hx (List.not_mem_nil x)
  | cons a rest ih =>
    intro h x hx
    unfold extractFirst at h
    by_cases hp : p a = true
    · rw [if_pos hp] at h; exact Option.noConfusion h
    · rw [if_neg hp] at h
      rcases List.mem_cons.mp hx with hx | hx
      · subst hx; exact Bool.eq_false_iff.mpr hp
      · cases hr : extractFirst p rest with
        | none => exact ih hr x hx
        | some pr => rw [hr, Option.map_some'] at h; exact Option.noConfusion h

theorem mergeGo_out_length (byUrl : List (String × Event)) (existing : List Event) :
    ∀ pool, (mergeGo byUrl pool existing).out.length = existing.length := by
  induction existing with
  | nil => intro pool; rfl
  | cons e rest ih =>
    intro pool
    cases hu : e.url with
    | some u =>
      cases hg : dictGet byUrl u with
      | some sev =>
        rw [mergeGo_cons_hit byUrl pool e rest u sev hu hg]
        simp [ih pool]
      | none =>
        rw [mergeGo_cons_removed byUrl pool e rest u hu hg]
        simp [ih pool]
    | none =>
      cases hx : extractFirst (fun s => s.title == e.title) pool with
      | some pr =>
        rw [mergeGo_cons_consume byUrl pool e rest pr.1 pr.2 hu hx]
        simp [ih pr.2]
      | none =>
        rw [mergeGo_cons_keep byUrl pool e rest hu hx]
        simp [ih pool]

theorem mergeGo_pool_sublist (byUrl : List (String × Event)) (existing : List Event) :
    ∀ pool, (mergeGo byUrl pool existing).pool.Sublist pool := by
  induction existing with
  | nil => intro pool; exact List.Sublist.refl pool
  | cons e rest ih =>
    intro pool
    cases hu : e.url with
    | some u =>
      cases hg : dictGet byUrl u with
      | some sev =>
        rw [mergeGo_cons_hit byUrl pool e rest u sev hu hg]; exact ih pool
      | none =>
        rw [mergeGo_cons_removed byUrl pool e rest u hu hg]; exact ih pool
    | none =>
      cases hx : extractFirst (fun s => s.title == e.title) pool with
      | some pr =>
        rw [mergeGo_cons_consume byUrl pool e rest pr.1 pr.2 hu hx]
        exact (ih pr.2).trans (extractFirst_mem_sublist hx).2.2
      | none =>
        rw [mergeGo_cons_keep byUrl pool e rest hu hx]; exact ih pool

/-- Every merged entry produced by the loop shares title and date with an
existing event, a url-indexed scraped event, or a pool event. -/
theorem mergeGo_out_prov (byUrl : List (String × Event)) (existing : List Event) :
    ∀ pool, ∀ x ∈ (mergeGo byUrl pool existing).out,
    (∃ y ∈ existing, idLike x y) ∨
    (∃ y, ((∃ u, (u, y) ∈ byUrl) ∨ y ∈ pool) ∧ idLike x y) := by
  induction existing with
  | nil => intro pool x hx; exact absurd hx (List.not_mem_nil x)
  | cons e rest ih =>
    intro pool x hx
    cases hu : e.url with
    | some u =>
      cases hg : dictGet byUrl u with
      | some sev =>
        rw [mergeGo_cons_hit byUrl pool e rest u sev hu hg] at hx
        rcases List.mem_cons.mp hx with hx | hx
        · refine Or.inr ⟨sev, Or.inl ⟨u, dictGet_some_mem hg⟩, ?_⟩
          subst hx
          by_cases hd : e.display_title.isSome = true <;> simp [hd, idLike]
        · rcases ih pool x hx with h | h
          · exact Or.inl (h.imp fun y hy => ⟨List.mem_cons_of_mem _ hy.1, hy.2⟩)
          · exact Or.inr h
      | none =>
        rw [mergeGo_cons_removed byUrl pool e rest u hu hg] at hx
        rcases List.mem_cons.mp hx with hx | hx
        · exact Or.inl ⟨e, List.mem_cons_self _ _, by subst hx; exact ⟨rfl, rfl⟩⟩
        · rcases ih pool x hx with h | h
          · exact Or.inl (h.imp fun y hy => ⟨List.mem_cons_of_mem _ hy.1, hy.2⟩)
          · exact Or.inr h
    | none =>
      cases hx2 : extractFirst (fun s => s.title == e.title) pool with
      | some pr =>
        rw [mergeGo_cons_consume byUrl pool e rest pr.1 pr.2 hu hx2] at hx
        rcases List.mem_cons.mp hx with hx | hx
        · refine Or.inr ⟨pr.1, Or.inr (extractFirst_mem_sublist hx2).1, ?_⟩
          subst hx
          by_cases hd : e.display_title.isSome = true
          · simp [hd, idLike]
          · by_cases hd2 : pr.1.display_title.isNone = true <;>
              simp [hd, hd2, idLike]
        · rcases ih pr.2 x hx with h | h
          · exact Or.inl (h.imp fun y hy => ⟨List.mem_cons_of_mem _ hy.1, hy.2⟩)
          · refine Or.inr (h.imp fun y hy => ⟨?_, hy.2⟩)
            rcases hy.1 with h2 | h2
            · exact Or.inl h2
            · exact Or.inr ((extractFirst_mem_sublist hx2).2.2.mem h2)
      | none =>
        rw [mergeGo_cons_keep byUrl pool e rest hu hx2] at hx
        rcases List.mem_cons.mp hx with hx | hx
        · refine Or.inl ⟨e, List.mem_cons_self _ _, ?_⟩
          subst hx
          by_cases hd : e.display_title.isNone = true <;>
            simp [defaultDisplay, hd, idLike]
        · rcases ih pool x hx with h | h
          · exact Or.inl (h.imp fun y hy => ⟨List.mem_cons_of_mem _ hy.1, hy.2⟩)
          · exact Or.inr h

/-- An existing event whose url is not in the url index is kept in the merged
output with status set to "removed". -/
theorem mergeGo_removed_mem (byUrl : List (String × Event)) (existing : List Event) :
    ∀ pool, ∀ e ∈ existing, ∀ u, e.url = some u → dictGet byUrl u = none →
    { e with status := some "removed" } ∈ (mergeGo byUrl pool existing).out := by
  induction existing with
  | nil => intro pool e he; exact absurd he (List.not_mem_nil e)
  | cons a rest ih =>
    intro pool e he u hu hg
    rcases List.mem_cons.mp he with he | he
    · subst he
      rw [mergeGo_cons_removed byUrl pool e rest u hu hg]
      exact List.mem_cons_self _ _
    · cases ha : a.url with
      | some v =>
        cases hgv : dictGet byUrl v with
        | some sev =>
          rw [mergeGo_cons_hit byUrl pool a rest v sev ha hgv]
          exact List.mem_cons_of_mem _ (ih pool e he u hu hg)
        | none =>
          rw [mergeGo_cons_removed byUrl pool a rest v ha hgv]
          exact List.mem_cons_of_mem _ (ih pool e he u hu hg)
      | none =>
        cases hx : extractFirst (fun s => s.title == a.title) pool with
        | some pr =>
          rw [mergeGo_cons_consume byUrl pool a rest pr.1 pr.2 ha hx]
          exact List.mem_cons_of_mem _ (ih pr.2 e he u hu hg)
        | none =>
          rw [mergeGo_cons_keep byUrl pool a rest ha hx]
          exact List.mem_cons_of_mem _ (ih pool e he u hu hg)

/-- Provenance over the whole merge: every merged entry shares title and date
with a scraped or an existing event. -/
theorem mergeEvents_prov (scraped existing : List Event) :
    ∀ x ∈ mergeEvents scraped existing,
    ∃ y, (y ∈ scraped ∨ y ∈ existing) ∧ idLike x y := by
  intro x hx
  unfold mergeEvents at hx
  rcases List.mem_append.mp hx with hx | hx
  · rcases List.mem_append.mp hx with hx | hx
    · rcases mergeGo_out_prov _ existing _ x hx with h | h
      · exact h.imp fun y hy => ⟨Or.inr hy.1, hy.2⟩
      · obtain ⟨y, hy1, hy2⟩ := h
        refine ⟨y, Or.inl ?_, hy2⟩
        rcases hy1 with ⟨u, hu⟩ | hy1
        · exact (mem_scraped_by_url hu).1
        · exact (List.mem_filter.mp hy1).1
    · obtain ⟨p, hp, hpe⟩ := List.mem_map.mp hx
      have := mem_scraped_by_url (List.mem_filter.mp hp).1
      exact ⟨p.2, Or.inl this.1, by rw [← hpe]; exact ⟨rfl, rfl⟩⟩
  · obtain ⟨y, hy, hye⟩ := List.mem_map.mp hx
    have hy2 : y ∈ scraped_without_url scraped :=
      (mergeGo_pool_sublist _ existing _).mem hy
    refine ⟨y, Or.inl (List.mem_filter.mp hy2).1, ?_⟩
    rw [← hye]
    by_cases hd : y.display_title.isNone = true <;> simp [defaultDisplay, hd, idLike]

theorem mergeEvents_length (scraped existing : List Event) :
    existing.length ≤ (mergeEvents scraped existing).length := by
  unfold mergeEvents
  simp only [List.length_append]
  have := mergeGo_out_length (scraped_by_url scraped) existing (scraped_without_url scraped)
  omega

theorem mergeEvents_removed_mem (scraped existing : List Event) :
    ∀ e ∈ existing, ∀ u, e.url = some u → (∀ s ∈ scraped, s.url ≠ some u) →
    { e with status := some "removed" } ∈ mergeEvents scraped existing := by
  intro e he u hu hs
  unfold mergeEvents
  refine List.mem_append_left _ (List.mem_append_left _ ?_)
  exact mergeGo_removed_mem _ existing _ e he u hu (dictGet_scraped_none hs)

theorem addNotification_length (m : MergerRec) (l : List Event) :
    l.length ≤ (addNotification m l).length := by
  unfold addNotification
  by_cases ht : truthy m.effective_notification_datetime = true
  · rw [if_pos ht]
    by_cases ha : (l.any fun e => e.title == notificationTitle) = true
    · rw [if_pos ha]
    · rw [if_neg ha]; simp
  · rw [if_neg ht]

theorem addNotification_mem (m : MergerRec) (l : List Event) :
    ∀ x ∈ l, x ∈ addNotification m l := by
  intro x hx
  unfold addNotification
  by_cases ht : truthy m.effective_notification_datetime = true
  · rw [if_pos ht]
    by_cases ha : (l.any fun e => e.title == notificationTitle) = true
    · rw [if_pos ha]; exact hx
    · rw [if_neg ha]; exact List.mem_append_left _ hx
  · rw [if_neg ht]; exact hx

theorem addNotification_prov (m : MergerRec) (l : List Event) :
    ∀ x ∈ addNotification m l, x ∈ l ∨ x.title = notificationTitle := by
  intro x hx
  unfold addNotification at hx
  by_cases ht : truthy m.effective_notification_datetime = true
  · rw [if_pos ht] at hx
    by_cases ha : (l.any fun e => e.title == notificationTitle) = true
    · rw [if_pos ha] at hx; exact Or.inl hx
    · rw [if_neg ha] at hx
      rcases List.mem_append.mp hx with hx | hx
      · exact Or.inl hx
      · exact Or.inr (by rw [List.mem_singleton.mp hx])
  · rw [if_neg ht] at hx; exact Or.inl hx

theorem addDetermination_keeps {m : MergerRec} {l : List Event}
    (H : ∀ x ∈ l, oldFormatFiltered m x = false) :
    l.length ≤ (addDetermination m l).length ∧
    ∀ x ∈ l, x ∈ addDetermination m l := by
  unfold addDetermination
  by_cases ht : truthy m.determination_publication_date = true
  · rw [if_pos ht]
    have hfil : l.filter (detKeep m) = l := by
      apply List.filter_eq_self.mpr
      intro x hx
      have h2 := H x hx
      unfold oldFormatFiltered at h2
      rw [ht] at h2
      simp only [Bool.true_and] at h2
      simp [detKeep, h2]
    simp only [hfil]
    by_cases ha : (l.any fun e => e.title == determinationTitle m) = true
    · rw [if_pos ha]
      exact ⟨le_refl _, fun x hx => hx⟩
    · rw [if_neg ha]
      exact ⟨by simp, fun x hx => List.mem_append_left _ hx⟩
  · rw [if_neg ht]
    exact ⟨le_refl _, fun x hx => hx⟩

/-- Claim C1 counterexample: the synthetic-determination step physically
deletes an old-format event ("Determination published: ..." dated at the
determination publication date) from the merged list, so with a prior list of
two events the reconciler returns a single event: the merged list is shorter
than the prior list and does not contain an entry for every prior event. -/
theorem c1_counterexample_old_format_deleted :
    (reconcile
      { determination_publication_date := some "2024-01-01"
        accc_determination := some "Approved"
        stage := some "Phase 1" }
      []
      [{ date := "2024-01-01", title := "Determination published: x" },
       { date := "2024-01-01", title := "Phase 1 determination: Approved" }]).length = 1 := by
  decide

/-- Claim C1 (amended): provided no scraped or existing event is an old-format
synthetic determination event (title starting "Determination published:" and
date equal to the matter's determination publication date), the reconciler
output has at least as many entries as the prior list, and every existing
event whose url is absent from the scrape is kept with status "removed"; such
old-format events are the only ones ever physically deleted. -/
theorem c1_monotonic_retention (m : MergerRec) (scraped existing : List Event)
    (H : ∀ e ∈ scraped ++ existing, oldFormatFiltered m e = false) :
    existing.length ≤ (reconcile m scraped existing).length ∧
    ∀ e ∈ existing, ∀ u, e.url = some u → (∀ s ∈ scraped, s.url ≠ some u) →
      { e with status := some "removed" } ∈ reconcile m scraped existing := by
  have Hm : ∀ x ∈ mergeEvents scraped existing, oldFormatFiltered m x = false := by
    intro x hx
    obtain ⟨y, hy, hxy⟩ := mergeEvents_prov scraped existing x hx
    rw [oldFormatFiltered_of_idLike hxy]
    exact H y (List.mem_append.mpr (hy.imp id id))
  have Hn : ∀ x ∈ addNotification m (mergeEvents scraped existing),
      oldFormatFiltered m x = false := by
    intro x hx
    rcases addNotification_prov m _ x hx with hx2 | hx2
    · exact Hm x hx2
    · unfold oldFormatFiltered
      rw [hx2]
      have : pyStartsWith notificationTitle "Determination published:" = false := by decide
      simp [this]
  constructor
  · calc existing.length ≤ (mergeEvents scraped existing).length :=
          mergeEvents_length scraped existing
      _ ≤ (addNotification m (mergeEvents scraped existing)).length :=
          addNotification_length m _
      _ ≤ (reconcile m scraped existing).length := (addDetermination_keeps Hn).1
  · intro e he u hu hs
    refine (addDetermination_keeps Hn).2 _ ?_
    refine addNotification_mem m _ _ ?_
    exact mergeEvents_removed_mem scraped existing e he u hu hs

/-- Claim C1 witness: a prior list with one vanished url event and a scrape
containing a different url; the vanished event is retained with status
"removed" and the merged list is not shorter. -/
theorem c1_monotonic_retention_witness :
    1 ≤ (reconcile { merger_id := some "MN-1" }
          [{ date := "2024-02-02", title := "b", url := some "https://b" }]
          [{ date := "2024-01-01"
             title := "a"
             url := some "https://a"
             status := some "live" }]).length ∧
    ({ date := "2024-01-01"
       title := "a"
       url := some "https://a"
       status := some "removed" } : Event) ∈
      reconcile { merger_id := some "MN-1" }
        [{ date := "2024-02-02", title := "b", url := some "https://b" }]
        [{ date := "2024-01-01"
           title := "a"
           url := some "https://a"
           status := some "live" }] := by
  have h := c1_monotonic_retention { merger_id := some "MN-1" }
    [{ date := "2024-02-02", title := "b", url := some "https://b" }]
    [{ date := "2024-01-01"
       title := "a"
       url := some "https://a"
       status := some "live" }]
    (by decide)
  refine ⟨h.1, ?_⟩
  exact h.2 { date := "2024-01-01"
              title := "a"
              url := some "https://a"
              status := some "live" } (by decide) "https://a" (by decide) (by decide)

/- ## Claim C5: idempotence lemmas -/

theorem detKeep_congr {m : MergerRec} {x y : Event}
    (ht : x.title = y.title) (hd : x.date = y.date) :
    detKeep m x = detKeep m y := by
  simp only [detKeep, ht, hd]

theorem defaultDisplay_idem (e : Event) :
    defaultDisplay (defaultDisplay e) = defaultDisplay e := by
  unfold defaultDisplay
  by_cases hd : e.display_title.isNone = true <;> simp [hd]

theorem defaultDisplay_isSome (e : Event) :
    (defaultDisplay e).display_title.isSome ∨ defaultDisplay e = e := by
  unfold defaultDisplay
  by_cases hd : e.display_title.isNone = true <;> simp [hd]

theorem dictInsert_keysNodup {d : List (String × Event)} {k : String} {v : Event}
    (h : keysNodup d) : keysNodup (dictInsert d k v) := by
  unfold dictInsert
  by_cases ha : d.any (fun p => p.1 == k) = true
  · rw [if_pos ha]
    unfold keysNodup
    have : (d.map (fun p => if p.1 == k then (k, v) else p)).map (fun p => p.1) =
        d.map (fun p => p.1) := by
      rw [List.map_map]
      apply List.map_congr_left
      intro p _
      simp only [Function.comp]
      by_cases hk : p.1 == k
      · rw [if_pos hk]; exact (eq_of_beq hk).symm
      · rw [if_neg hk]
    rw [this]
    exact h
  · rw [if_neg ha]
    unfold keysNodup
    rw [List.map_append]
    refine List.Nodup.append h (List.nodup_singleton k) ?_
    intro a ha2 hb
    rw [List.mem_singleton.mp hb] at ha2
    obtain ⟨p, hp, hpk⟩ := List.mem_map.mp ha2
    exact ha (List.any_eq_true.mpr ⟨p, hp, by simp [hpk]⟩)

theorem byUrlFold_keysNodup : ∀ (l : List Event) (d : List (String × Event)),
    keysNodup d → keysNodup (l.foldl byUrlStep d) := by
  intro l
  induction l with
  | nil => intro d h; exact h
  | cons e rest ih =>
    intro d h
    refine ih (byUrlStep d e) ?_
    unfold byUrlStep
    cases e.url with
    | some u => exact dictInsert_keysNodup h
    | none => exact h

theorem scraped_by_url_keysNodup (scraped : List Event) :
    keysNodup (scraped_by_url scraped) :=
  byUrlFold_keysNodup scraped [] List.nodup_nil

theorem dictGet_of_mem {d : List (String × Event)} {u : String} {v : Event}
    (hn : keysNodup d) (h : (u, v) ∈ d) : dictGet d u = some v := by
  induction d with
  | nil => exact absurd h (List.not_mem_nil _)
  | cons p rest ih =>
    unfold keysNodup at hn
    simp only [List.map_cons, List.nodup_cons] at hn
    rcases List.mem_cons.mp h with h1 | h1
    · unfold dictGet
      rw [← h1, List.find?_cons_of_pos _ (by simp)]
      rfl
    · have hk : (p.1 == u) = false := by
        rw [Bool.eq_false_iff]
        intro hk2
        refine hn.1 ?_
        rw [eq_of_beq hk2]
        exact List.mem_map.mpr ⟨(u, v), h1, rfl⟩
      unfold dictGet
      rw [List.find?_cons_of_neg _ (by simp [hk])]
      exact ih hn.2 h1

/-- Processing a concatenated existing list is processing the two parts in
sequence, threading the pool. -/
theorem mergeGo_append (byUrl : List (String × Event)) (L1 : List Event) :
    ∀ (L2 : List Event) (pool : List Event),
    mergeGo byUrl pool (L1 ++ L2) =
      ⟨(mergeGo byUrl pool L1).out ++
         (mergeGo byUrl (mergeGo byUrl pool L1).pool L2).out,
       (mergeGo byUrl pool L1).used ++
         (mergeGo byUrl (mergeGo byUrl pool L1).pool L2).used,
       (mergeGo byUrl (mergeGo byUrl pool L1).pool L2).pool,
       (mergeGo byUrl pool L1).after ++
         (mergeGo byUrl (mergeGo byUrl pool L1).pool L2).after⟩ := by
  induction L1 with
  | nil => intro L2 pool; simp [mergeGo]
  | cons e rest ih =>
    intro L2 pool
    cases hu : e.url with
    | some u =>
      cases hg : dictGet byUrl u with
      | some sev =>
        rw [List.cons_append, mergeGo_cons_hit byUrl pool e (rest ++ L2) u sev hu hg,
          mergeGo_cons_hit byUrl pool e rest u sev hu hg]
        simp [ih L2 pool]
      | none =>
        rw [List.cons_append, mergeGo_cons_removed byUrl pool e (rest ++ L2) u hu hg,
          mergeGo_cons_removed byUrl pool e rest u hu hg]
        simp [ih L2 pool]
    | none =>
      cases hx : extractFirst (fun s => s.title == e.title) pool with
      | some pr =>
        rw [List.cons_append, mergeGo_cons_consume byUrl pool e (rest ++ L2) pr.1 pr.2 hu hx,
          mergeGo_cons_consume byUrl pool e rest pr.1 pr.2 hu hx]
        simp [ih L2 pr.2]
      | none =>
        rw [List.cons_append, mergeGo_cons_keep byUrl pool e (rest ++ L2) hu hx,
          mergeGo_cons_keep byUrl pool e rest hu hx]
        simp [ih L2 pool]

theorem defaultDisplay_url (e : Event) : (defaultDisplay e).url = e.url := by
  unfold defaultDisplay
  by_cases hd : e.display_title.isNone = true <;> simp [hd]

theorem defaultDisplay_title (e : Event) : (defaultDisplay e).title = e.title := by
  unfold defaultDisplay
  by_cases hd : e.display_title.isNone = true <;> simp [hd]

theorem defaultDisplay_date (e : Event) : (defaultDisplay e).date = e.date := by
  unfold defaultDisplay
  by_cases hd : e.display_title.isNone = true <;> simp [hd]

/-- An existing segment of already-defaulted url-less events with an empty
pool is reproduced unchanged. -/
theorem mergeGo_nilPool (byUrl : List (String × Event)) :
    ∀ (L : List Event), (∀ x ∈ L, x.url = none ∧ defaultDisplay x = x) →
    mergeGo byUrl [] L = ⟨L, [], [], L⟩ := by
  intro L
  induction L with
  | nil => intro _; rfl
  | cons e rest ih =>
    intro H
    have he := H e (List.mem_cons_self _ _)
    rw [mergeGo_cons_keep byUrl [] e rest he.1 rfl,
      ih (fun x hx => H x (List.mem_cons_of_mem _ hx)), he.2]

/-- An existing segment consisting of the url-indexed scraped events is
reproduced unchanged, consuming nothing and marking each url used. -/
theorem mergeGo_urlSeg (byUrl : List (String × Event)) :
    ∀ (ps : List (String × Event)) (pool : List Event),
    (∀ p ∈ ps, p.2.url = some p.1 ∧ dictGet byUrl p.1 = some p.2) →
    mergeGo byUrl pool (ps.map (fun p => p.2)) =
      ⟨ps.map (fun p => p.2), ps.map (fun p => p.1), pool,
       ps.map (fun p => p.2)⟩ := by
  intro ps
  induction ps with
  | nil => intro pool _; rfl
  | cons p rest ih =>
    intro pool H
    have hp := H p (List.mem_cons_self _ _)
    rw [List.map_cons,
      mergeGo_cons_hit byUrl pool p.2 (rest.map (fun p => p.2)) p.1 p.2 hp.1 hp.2,
      ih pool (fun q hq => H q (List.mem_cons_of_mem _ hq))]
    by_cases hd : p.2.display_title.isSome = true <;> simp [hd]

/-- The leftover segment: defaulted copies of the pool consume the pool
one-for-one, in order, and are reproduced unchanged. -/
theorem mergeGo_leftover (byUrl : List (String × Event)) :
    ∀ (pool : List Event), (∀ y ∈ pool, y.url = none) →
    mergeGo byUrl pool (pool.map defaultDisplay) =
      ⟨pool.map defaultDisplay, [], [], pool.map defaultDisplay⟩ := by
  intro pool
  induction pool with
  | nil => intro _; rfl
  | cons p rest ih =>
    intro H
    have hp := H p (List.mem_cons_self _ _)
    have hx : extractFirst (fun s => s.title == (defaultDisplay p).title) (p :: rest) =
        some (p, rest) := by
      unfold extractFirst
      rw [if_pos (by rw [defaultDisplay_title]; exact beq_self_eq_true _)]
    rw [List.map_cons,
      mergeGo_cons_consume byUrl (p :: rest) (defaultDisplay p)
        (rest.map defaultDisplay) p rest (by rw [defaultDisplay_url]; exact hp) hx,
      ih (fun y hy => H y (List.mem_cons_of_mem _ hy))]
    unfold defaultDisplay
    by_cases hd : p.display_title.isNone = true <;> simp [hd]

/-- The round trip at the heart of reconciler idempotence: re-running the
merge loop on its own (keep-filtered) output, with the same url index and the
same fresh pool, reproduces that output, consumes the same pool events, and
marks the same urls used. The filter models the old-format determination
cleanup, which under the stated hypotheses only ever drops entries that
consumed nothing (vanished or kept existing events). -/
theorem mergeGo_roundtrip (byUrl : List (String × Event)) (keep : Event → Bool)
    (Hki : ∀ x y : Event, x.title = y.title → x.date = y.date → keep x = keep y)
    (Hb : ∀ p ∈ byUrl, keep p.2 = true ∧ p.2.url = some p.1) :
    ∀ (E pool : List Event), (∀ y ∈ pool, keep y = true ∧ y.url = none) →
    mergeGo byUrl pool ((mergeGo byUrl pool E).out.filter keep) =
      ⟨(mergeGo byUrl pool E).out.filter keep,
       (mergeGo byUrl pool E).used,
       (mergeGo byUrl pool E).pool,
       (mergeGo byUrl pool E).out.filter keep⟩ := by
  intro E
  induction E with
  | nil => intro pool _; rfl
  | cons e rest ih =>
    intro pool Hpool
    cases hu : e.url with
    | some u =>
      cases hg : dictGet byUrl u with
      | some sev =>
        have hbu := Hb (u, sev) (dictGet_some_mem hg)
        rw [mergeGo_cons_hit byUrl pool e rest u sev hu hg]
        by_cases hd : e.display_title.isSome = true
        · rw [if_pos hd]
          have hkx : keep { sev with display_title := e.display_title } = true := by
            rw [Hki { sev with display_title := e.display_title } sev rfl rfl]
            exact hbu.1
          rw [List.filter_cons_of_pos hkx]
          rw [mergeGo_cons_hit byUrl pool { sev with display_title := e.display_title }
            ((mergeGo byUrl pool rest).out.filter keep) u sev hbu.2 hg]
          rw [ih pool Hpool]
          simp [hd]
        · rw [if_neg hd]
          rw [List.filter_cons_of_pos hbu.1]
          rw [mergeGo_cons_hit byUrl pool sev
            ((mergeGo byUrl pool rest).out.filter keep) u sev hbu.2 hg]
          rw [ih pool Hpool]
          by_cases hd2 : sev.display_title.isSome = true <;> simp [hd2]
      | none =>
        rw [mergeGo_cons_removed byUrl pool e rest u hu hg]
        by_cases hkx : keep { e with status := some "removed" } = true
        · rw [List.filter_cons_of_pos hkx]
          rw [mergeGo_cons_removed byUrl pool { e with status := some "removed" }
            ((mergeGo byUrl pool rest).out.filter keep) u hu hg]
          rw [ih pool Hpool]
        · rw [List.filter_cons_of_neg (by simp [hkx])]
          exact ih pool Hpool
    | none =>
      cases hx2 : extractFirst (fun s => s.title == e.title) pool with
      | some pr =>
        obtain ⟨sev, pool2⟩ := pr
        rw [mergeGo_cons_consume byUrl pool e rest sev pool2 hu hx2]
        obtain ⟨hsevmem, hsevpred, hsub⟩ := extractFirst_mem_sublist hx2
        have hte : sev.title = e.title := eq_of_beq (by simpa using hsevpred)
        have hkeepsev := (Hpool sev hsevmem).1
        have hurlsev := (Hpool sev hsevmem).2
        have Hpool2 : ∀ y ∈ pool2, keep y = true ∧ y.url = none :=
          fun y hy => Hpool y (hsub.mem hy)
        have hx2b : extractFirst (fun s => s.title == sev.title) pool =
            some (sev, pool2) := by
          simp only [hte]; exact hx2
        by_cases hd : e.display_title.isSome = true
        · rw [if_pos hd]
          have hkx : keep { sev with display_title := e.display_title } = true := by
            rw [Hki { sev with display_title := e.display_title } sev rfl rfl]
            exact hkeepsev
          rw [List.filter_cons_of_pos hkx]
          rw [mergeGo_cons_consume byUrl pool { sev with display_title := e.display_title }
            ((mergeGo byUrl pool2 rest).out.filter keep) sev pool2 hurlsev hx2b]
          rw [ih pool2 Hpool2]
          simp [hd]
        · rw [if_neg hd]
          by_cases hd2 : sev.display_title.isNone = true
          · rw [if_pos hd2]
            have hkx : keep { sev with display_title := some sev.title } = true := by
              rw [Hki { sev with display_title := some sev.title } sev rfl rfl]
              exact hkeepsev
            rw [List.filter_cons_of_pos hkx]
            rw [mergeGo_cons_consume byUrl pool { sev with display_title := some sev.title }
              ((mergeGo byUrl pool2 rest).out.filter keep) sev pool2 hurlsev hx2b]
            rw [ih pool2 Hpool2]
            simp
          · rw [if_neg hd2]
            rw [List.filter_cons_of_pos hkeepsev]
            rw [mergeGo_cons_consume byUrl pool sev
              ((mergeGo byUrl pool2 rest).out.filter keep) sev pool2 hurlsev hx2b]
            rw [ih pool2 Hpool2]
            cases hds : sev.display_title with
            | none => rw [hds] at hd2; simp at hd2
            | some v =>
              simp only [Option.isSome_some, if_true, ← hds]
              rw [if_pos (show sev.display_title.isSome = true by rw [hds]; rfl)]
      | none =>
        rw [mergeGo_cons_keep byUrl pool e rest hu hx2]
        by_cases hkx : keep (defaultDisplay e) = true
        · rw [List.filter_cons_of_pos hkx]
          have hx2b : extractFirst (fun s => s.title == (defaultDisplay e).title) pool =
              none := by
            simp only [defaultDisplay_title]; exact hx2
          rw [mergeGo_cons_keep byUrl pool (defaultDisplay e)
            ((mergeGo byUrl pool rest).out.filter keep)
            (by rw [defaultDisplay_url]; exact hu) hx2b]
          rw [ih pool Hpool, defaultDisplay_idem]
        · rw [List.filter_cons_of_neg (by simp [hkx])]
          exact ih pool Hpool

theorem addNotification_shape (m : MergerRec) (l : List Event) :
    ∃ N, addNotification m l = l ++ N ∧
      (N = [] ∨ N = [notifEvent m]) := by
  unfold addNotification
  by_cases ht : truthy m.effective_notification_datetime = true
  · rw [if_pos ht]
    by_cases ha : (l.any fun e => e.title == notificationTitle) = true
    · exact ⟨[], by rw [if_pos ha, List.append_nil], Or.inl rfl⟩
    · exact ⟨[notifEvent m], by rw [if_neg ha]; rfl, Or.inr rfl⟩
  · exact ⟨[], by rw [if_neg ht, List.append_nil], Or.inl rfl⟩

theorem addDetermination_eq_of_truthy_any {m : MergerRec} {l : List Event}
    (ht : truthy m.determination_publication_date = true)
    (ha : ((l.filter (detKeep m)).any fun e => e.title == determinationTitle m) = true) :
    addDetermination m l = l.filter (detKeep m) := by
  unfold addDetermination
  rw [if_pos ht, if_pos ha]

theorem addDetermination_eq_of_truthy_not_any {m : MergerRec} {l : List Event}
    (ht : truthy m.determination_publication_date = true)
    (ha : ((l.filter (detKeep m)).any fun e => e.title == determinationTitle m) = false) :
    addDetermination m l = l.filter (detKeep m) ++ [detEvent m] := by
  unfold addDetermination
  rw [if_pos ht, if_neg (by rw [ha]; exact Bool.false_ne_true)]
  rfl

theorem addDetermination_eq_of_not_truthy {m : MergerRec} {l : List Event}
    (ht : truthy m.determination_publication_date = false) :
    addDetermination m l = l := by
  unfold addDetermination
  rw [if_neg (by rw [ht]; exact Bool.false_ne_true)]

theorem filter_detKeep_idem (m : MergerRec) (l : List Event) :
    (l.filter (detKeep m)).filter (detKeep m) = l.filter (detKeep m) :=
  List.filter_eq_self.mpr (fun _ ha => List.of_mem_filter ha)

theorem addDetermination_idem (m : MergerRec) (l : List Event) :
    addDetermination m (addDetermination m l) = addDetermination m l := by
  by_cases ht : truthy m.determination_publication_date = true
  · by_cases ha : ((l.filter (detKeep m)).any
        fun e => e.title == determinationTitle m) = true
    · rw [addDetermination_eq_of_truthy_any ht ha,
        addDetermination_eq_of_truthy_any ht (by rw [filter_detKeep_idem]; exact ha),
        filter_detKeep_idem]
    · rw [addDetermination_eq_of_truthy_not_any ht (Bool.eq_false_iff.mpr ha)]
      by_cases hkd : detKeep m (detEvent m) = true
      · have hfil : (l.filter (detKeep m) ++ [detEvent m]).filter (detKeep m) =
            l.filter (detKeep m) ++ [detEvent m] := by
          rw [List.filter_append, filter_detKeep_idem,
            List.filter_cons_of_pos hkd, List.filter_nil]
        rw [addDetermination_eq_of_truthy_any ht (by
          rw [hfil]
          refine List.any_eq_true.mpr ⟨detEvent m, List.mem_append_right _ ?_, ?_⟩
          · exact List.mem_singleton.mpr rfl
          · exact beq_self_eq_true _), hfil]
      · have hfil : (l.filter (detKeep m) ++ [detEvent m]).filter (detKeep m) =
            l.filter (detKeep m) := by
          rw [List.filter_append, filter_detKeep_idem,
            List.filter_cons_of_neg (by simp [Bool.eq_false_iff.mpr hkd]),
            List.filter_nil, List.append_nil]
        rw [addDetermination_eq_of_truthy_not_any ht (by
          rw [hfil]; exact Bool.eq_false_iff.mpr ha), hfil]
  · rw [addDetermination_eq_of_not_truthy (Bool.eq_false_iff.mpr ht),
      addDetermination_eq_of_not_truthy (Bool.eq_false_iff.mpr ht)]

theorem addNotification_eq_of_any {m : MergerRec} {l : List Event}
    (ha : (l.any fun e => e.title == notificationTitle) = true) :
    addNotification m l = l := by
  unfold addNotification
  by_cases ht : truthy m.effective_notification_datetime = true
  · rw [if_pos ht, if_pos ha]
  · rw [if_neg ht]

theorem addNotification_any {m : MergerRec} {l : List Event}
    (ht : truthy m.effective_notification_datetime = true) :
    ((addNotification m l).any fun e => e.title == notificationTitle) = true := by
  unfold addNotification
  rw [if_pos ht]
  by_cases ha : (l.any fun e => e.title == notificationTitle) = true
  · rw [if_pos ha]; exact ha
  · rw [if_neg ha, List.any_append]
    simp

theorem addDetermination_any_title {m : MergerRec} {l : List Event} {t : String}
    (hs : pyStartsWith t "Determination published:" = false)
    (ha : (l.any fun e => e.title == t) = true) :
    ((addDetermination m l).any fun e => e.title == t) = true := by
  obtain ⟨x, hx, hxt⟩ := List.any_eq_true.mp ha
  have hxtitle : x.title = t := eq_of_beq hxt
  have hkx : detKeep m x = true := by
    unfold detKeep
    rw [hxtitle, hs]
    rfl
  have hxf : x ∈ l.filter (detKeep m) := List.mem_filter.mpr ⟨hx, hkx⟩
  by_cases ht : truthy m.determination_publication_date = true
  · by_cases hany : ((l.filter (detKeep m)).any
        fun e => e.title == determinationTitle m) = true
    · rw [addDetermination_eq_of_truthy_any ht hany]
      exact List.any_eq_true.mpr ⟨x, hxf, hxt⟩
    · rw [addDetermination_eq_of_truthy_not_any ht (Bool.eq_false_iff.mpr hany)]
      exact List.any_eq_true.mpr ⟨x, List.mem_append_left _ hxf, hxt⟩
  · rw [addDetermination_eq_of_not_truthy (Bool.eq_false_iff.mpr ht)]
    exact ha

theorem effKeep_congr {m : MergerRec} (x y : Event)
    (ht : x.title = y.title) (hd : x.date = y.date) :
    effKeep m x = effKeep m y := by
  unfold effKeep
  by_cases h : truthy m.determination_publication_date = true
  · rw [if_pos h, if_pos h]; exact detKeep_congr ht hd
  · rw [if_neg h, if_neg h]

theorem effKeep_true_of_oldFormat {m : MergerRec} {e : Event}
    (h : oldFormatFiltered m e = false) : effKeep m e = true := by
  unfold effKeep
  by_cases ht : truthy m.determination_publication_date = true
  · rw [if_pos ht]
    unfold oldFormatFiltered at h
    rw [ht] at h
    simp only [Bool.true_and] at h
    simp [detKeep, h]
  · rw [if_neg ht]

theorem filter_effKeep_of_truthy {m : MergerRec} (l : List Event)
    (ht : truthy m.determination_publication_date = true) :
    l.filter (effKeep m) = l.filter (detKeep m) :=
  List.filter_congr (fun x _ => by unfold effKeep; rw [if_pos ht])

theorem filter_effKeep_of_not_truthy {m : MergerRec} (l : List Event)
    (ht : ¬truthy m.determination_publication_date = true) :
    l.filter (effKeep m) = l := by
  rw [List.filter_congr (fun x _ => by unfold effKeep; rw [if_neg ht]),
    List.filter_true]

theorem notifEvent_facts (m : MergerRec) :
    (notifEvent m).url = none ∧ defaultDisplay (notifEvent m) = notifEvent m ∧
    detKeep m (notifEvent m) = true := by
  refine ⟨rfl, rfl, ?_⟩
  unfold detKeep notifEvent
  rw [show pyStartsWith notificationTitle "Determination published:" = false by decide]
  rfl

theorem detEvent_facts (m : MergerRec) :
    (detEvent m).url = none ∧ defaultDisplay (detEvent m) = detEvent m := ⟨rfl, rfl⟩

/-- The reconciler output decomposes as the keep-filtered processed existing
events, the new url-keyed scraped events, the defaulted leftover pool, and a
tail of synthetic events that are url-less and already display-defaulted. -/
theorem reconcile_shape (m : MergerRec) (scraped E : List Event)
    (H : ∀ s ∈ scraped, oldFormatFiltered m s = false) :
    ∃ T, reconcile m scraped E =
      (mergeGo (scraped_by_url scraped) (scraped_without_url scraped) E).out.filter
          (effKeep m)
        ++ ((scraped_by_url scraped).filter (fun p =>
              !(mergeGo (scraped_by_url scraped) (scraped_without_url scraped)
                  E).used.contains p.1)).map (fun p => p.2)
        ++ ((mergeGo (scraped_by_url scraped) (scraped_without_url scraped)
              E).pool.map defaultDisplay)
        ++ T
      ∧ ∀ x ∈ T, x.url = none ∧ defaultDisplay x = x := by
  have hW : mergeEvents scraped E =
      (mergeGo (scraped_by_url scraped) (scraped_without_url scraped) E).out
        ++ ((scraped_by_url scraped).filter (fun p =>
              !(mergeGo (scraped_by_url scraped) (scraped_without_url scraped)
                  E).used.contains p.1)).map (fun p => p.2)
        ++ ((mergeGo (scraped_by_url scraped) (scraped_without_url scraped)
              E).pool.map defaultDisplay) := rfl
  obtain ⟨N, hN, hNcases⟩ := addNotification_shape m (mergeEvents scraped E)
  have hNfacts : ∀ x ∈ N, x.url = none ∧ defaultDisplay x = x ∧
      detKeep m x = true := by
    intro x hx
    rcases hNcases with h | h
    · rw [h] at hx; exact absurd hx (List.not_mem_nil x)
    · rw [h] at hx
      rw [List.mem_singleton.mp hx]
      exact ⟨(notifEvent_facts m).1, (notifEvent_facts m).2.1, (notifEvent_facts m).2.2⟩
  have hnewKeep : ∀ x ∈ ((scraped_by_url scraped).filter (fun p =>
        !(mergeGo (scraped_by_url scraped) (scraped_without_url scraped)
            E).used.contains p.1)).map (fun p => p.2), effKeep m x = true := by
    intro x hx
    obtain ⟨p, hp, hpe⟩ := List.mem_map.mp hx
    have := (mem_scraped_by_url (List.mem_filter.mp hp).1).1
    rw [← hpe]
    exact effKeep_true_of_oldFormat (H _ this)
  have hleftKeep : ∀ x ∈ ((mergeGo (scraped_by_url scraped)
        (scraped_without_url scraped) E).pool.map defaultDisplay),
      effKeep m x = true := by
    intro x hx
    obtain ⟨y, hy, hye⟩ := List.mem_map.mp hx
    have hy2 : y ∈ scraped :=
      (List.mem_filter.mp ((mergeGo_pool_sublist _ E _).mem hy)).1
    rw [← hye, effKeep_congr (defaultDisplay y) y (defaultDisplay_title y)
      (defaultDisplay_date y)]
    exact effKeep_true_of_oldFormat (H _ hy2)
  by_cases ht : truthy m.determination_publication_date = true
  · have hYfil : (addNotification m (mergeEvents scraped E)).filter (detKeep m) =
        (mergeGo (scraped_by_url scraped) (scraped_without_url scraped) E).out.filter
            (effKeep m)
          ++ ((scraped_by_url scraped).filter (fun p =>
                !(mergeGo (scraped_by_url scraped) (scraped_without_url scraped)
                    E).used.contains p.1)).map (fun p => p.2)
          ++ ((mergeGo (scraped_by_url scraped) (scraped_without_url scraped)
                E).pool.map defaultDisplay)
          ++ N.filter (detKeep m) := by
      have hA : ((mergeGo (scraped_by_url scraped) (scraped_without_url scraped)
            E).out).filter (detKeep m) =
          ((mergeGo (scraped_by_url scraped) (scraped_without_url scraped)
            E).out).filter (effKeep m) :=
        (filter_effKeep_of_truthy _ ht).symm
      have hB : (((scraped_by_url scraped).filter (fun p =>
            !(mergeGo (scraped_by_url scraped) (scraped_without_url scraped)
                E).used.contains p.1)).map (fun p => p.2)).filter (detKeep m) =
          ((scraped_by_url scraped).filter (fun p =>
            !(mergeGo (scraped_by_url scraped) (scraped_without_url scraped)
                E).used.contains p.1)).map (fun p => p.2) :=
        List.filter_eq_self.mpr (fun x hx => by
          have := hnewKeep x hx
          unfold effKeep at this
          rwa [if_pos ht] at this)
      have hC : (((mergeGo (scraped_by_url scraped) (scraped_without_url scraped)
            E).pool.map defaultDisplay)).filter (detKeep m) =
          ((mergeGo (scraped_by_url scraped) (scraped_without_url scraped)
            E).pool.map defaultDisplay) :=
        List.filter_eq_self.mpr (fun x hx => by
          have := hleftKeep x hx
          unfold effKeep at this
          rwa [if_pos ht] at this)
      rw [hN, hW, List.filter_append, List.filter_append, List.filter_append,
        hA, hB, hC]
    have hNfil : N.filter (detKeep m) = N :=
      List.filter_eq_self.mpr (fun x hx => (hNfacts x hx).2.2)
    by_cases ha : (((addNotification m (mergeEvents scraped E)).filter
        (detKeep m)).any fun e => e.title == determinationTitle m) = true
    · refine ⟨N, ?_, fun x hx => ⟨(hNfacts x hx).1, (hNfacts x hx).2.1⟩⟩
      show addDetermination m (addNotification m (mergeEvents scraped E)) = _
      rw [addDetermination_eq_of_truthy_any ht ha, hYfil, hNfil]
    · refine ⟨N ++ [detEvent m], ?_, ?_⟩
      · show addDetermination m (addNotification m (mergeEvents scraped E)) = _
        rw [addDetermination_eq_of_truthy_not_any ht (Bool.eq_false_iff.mpr ha),
          hYfil, hNfil]
        simp [List.append_assoc]
      · intro x hx
        rcases List.mem_append.mp hx with hx | hx
        · exact ⟨(hNfacts x hx).1, (hNfacts x hx).2.1⟩
        · rw [List.mem_singleton.mp hx]
          exact detEvent_facts m
  · refine ⟨N, ?_, fun x hx => ⟨(hNfacts x hx).1, (hNfacts x hx).2.1⟩⟩
    show addDetermination m (addNotification m (mergeEvents scraped E)) = _
    rw [addDetermination_eq_of_not_truthy (Bool.eq_false_iff.mpr ht), hN, hW,
      filter_effKeep_of_not_truthy _ ht]

theorem strContains_iff {l : List String} {a : String} :
    l.contains a = true ↔ a ∈ l := List.elem_iff

/-- Re-merging the same scrape against a list of the reconciler's shape is the
identity: the filtered processed entries, new url events, defaulted leftovers
and synthetic tail are each reproduced, every url ends up marked used, and the
pool is fully consumed. -/
theorem mergeEvents_of_shape (scraped E T : List Event) (keep : Event → Bool)
    (Hki : ∀ x y : Event, x.title = y.title → x.date = y.date → keep x = keep y)
    (Hsc : ∀ s ∈ scraped, keep s = true)
    (HT : ∀ x ∈ T, x.url = none ∧ defaultDisplay x = x) :
    mergeEvents scraped
      ((mergeGo (scraped_by_url scraped) (scraped_without_url scraped) E).out.filter keep
        ++ ((scraped_by_url scraped).filter (fun p =>
              !(mergeGo (scraped_by_url scraped) (scraped_without_url scraped)
                  E).used.contains p.1)).map (fun p => p.2)
        ++ ((mergeGo (scraped_by_url scraped) (scraped_without_url scraped)
              E).pool.map defaultDisplay)
        ++ T) =
      (mergeGo (scraped_by_url scraped) (scraped_without_url scraped) E).out.filter keep
        ++ ((scraped_by_url scraped).filter (fun p =>
              !(mergeGo (scraped_by_url scraped) (scraped_without_url scraped)
                  E).used.contains p.1)).map (fun p => p.2)
        ++ ((mergeGo (scraped_by_url scraped) (scraped_without_url scraped)
              E).pool.map defaultDisplay)
        ++ T := by
  have Hb : ∀ p ∈ scraped_by_url scraped, keep p.2 = true ∧ p.2.url = some p.1 :=
    fun p hp => ⟨Hsc _ (mem_scraped_by_url hp).1, (mem_scraped_by_url hp).2⟩
  have Hpool : ∀ y ∈ scraped_without_url scraped, keep y = true ∧ y.url = none :=
    fun y hy => ⟨Hsc _ (List.mem_filter.mp hy).1,
      Option.isNone_iff_eq_none.mp (List.mem_filter.mp hy).2⟩
  have hps : ∀ p ∈ (scraped_by_url scraped).filter (fun p =>
        !(mergeGo (scraped_by_url scraped) (scraped_without_url scraped)
            E).used.contains p.1),
      p.2.url = some p.1 ∧ dictGet (scraped_by_url scraped) p.1 = some p.2 := by
    intro p hp
    refine ⟨(mem_scraped_by_url (List.mem_filter.mp hp).1).2, ?_⟩
    have := (List.mem_filter.mp hp).1
    exact dictGet_of_mem (scraped_by_url_keysNodup scraped) this
  have hpoolurl : ∀ y ∈ (mergeGo (scraped_by_url scraped)
        (scraped_without_url scraped) E).pool, y.url = none :=
    fun y hy => (Hpool y ((mergeGo_pool_sublist _ E _).mem hy)).2
  have hg1 := mergeGo_roundtrip (scraped_by_url scraped) keep Hki Hb E
    (scraped_without_url scraped) Hpool
  have hg2 := mergeGo_urlSeg (scraped_by_url scraped)
    ((scraped_by_url scraped).filter (fun p =>
      !(mergeGo (scraped_by_url scraped) (scraped_without_url scraped)
          E).used.contains p.1))
    ((mergeGo (scraped_by_url scraped) (scraped_without_url scraped) E).pool) hps
  have hg3 := mergeGo_leftover (scraped_by_url scraped)
    ((mergeGo (scraped_by_url scraped) (scraped_without_url scraped) E).pool)
    hpoolurl
  have hg4 := mergeGo_nilPool (scraped_by_url scraped) T HT
  unfold mergeEvents
  dsimp only
  rw [mergeGo_append (scraped_by_url scraped) _ T (scraped_without_url scraped),
    mergeGo_append (scraped_by_url scraped) _
      ((mergeGo (scraped_by_url scraped) (scraped_without_url scraped)
          E).pool.map defaultDisplay) (scraped_without_url scraped),
    mergeGo_append (scraped_by_url scraped) _
      (((scraped_by_url scraped).filter (fun p =>
          !(mergeGo (scraped_by_url scraped) (scraped_without_url scraped)
              E).used.contains p.1)).map (fun p => p.2))
      (scraped_without_url scraped),
    hg1]
  simp only [hg2, hg3, hg4, List.append_nil]
  have hkeys : (scraped_by_url scraped).filter (fun p =>
      !(((mergeGo (scraped_by_url scraped) (scraped_without_url scraped) E).used
          ++ ((scraped_by_url scraped).filter (fun p =>
              !(mergeGo (scraped_by_url scraped) (scraped_without_url scraped)
                  E).used.contains p.1)).map (fun p => p.1)).contains
            p.1)) = [] := by
    refine List.filter_eq_nil_iff.mpr ?_
    intro p hp
    have hkey : p.1 ∈ (mergeGo (scraped_by_url scraped)
        (scraped_without_url scraped) E).used
        ++ ((scraped_by_url scraped).filter (fun p =>
            !(mergeGo (scraped_by_url scraped) (scraped_without_url scraped)
                E).used.contains p.1)).map (fun p => p.1) := by
      by_cases hc : p.1 ∈ (mergeGo (scraped_by_url scraped)
          (scraped_without_url scraped) E).used
      · exact List.mem_append_left _ hc
      · refine List.mem_append_right _ ?_
        refine List.mem_map.mpr ⟨p, ?_, rfl⟩
        refine List.mem_filter.mpr ⟨hp, ?_⟩
        cases hcc : (mergeGo (scraped_by_url scraped)
            (scraped_without_url scraped) E).used.contains p.1 with
        | false => rfl
        | true => exact absurd (strContains_iff.mp hcc) hc
    rw [strContains_iff.mpr hkey]
    simp
  simp only [hkeys, List.map_nil, List.append_nil, List.map_cons]

/-- Claim C5 counterexample: with a scrape containing two url-less events
whose titles use the old format "Determination published: ...", one dated at
the determination publication date, re-running the reconciler on its own
output is not idempotent: a user display_title is dropped and replaced by a
defaulted copy, so an event of the first output does not survive the second
run. -/
theorem c5_counterexample_not_idempotent :
    reconcile
      { determination_publication_date := some "2024-01-01"
        accc_determination := some "Approved"
        stage := some "Phase 1" }
      [{ date := "2024-01-01", title := "Determination published: old" },
       { date := "2024-02-02", title := "Determination published: old" }]
      (reconcile
        { determination_publication_date := some "2024-01-01"
          accc_determination := some "Approved"
          stage := some "Phase 1" }
        [{ date := "2024-01-01", title := "Determination published: old" },
         { date := "2024-02-02", title := "Determination published: old" }]
        [{ date := "2024-01-01"
           title := "Determination published: old"
           display_title := some "A" },
         { date := "2024-02-02"
           title := "Determination published: old"
           display_title := some "B" }]) ≠
    reconcile
      { determination_publication_date := some "2024-01-01"
        accc_determination := some "Approved"
        stage := some "Phase 1" }
      [{ date := "2024-01-01", title := "Determination published: old" },
       { date := "2024-02-02", title := "Determination published: old" }]
      [{ date := "2024-01-01"
         title := "Determination published: old"
         display_title := some "A" },
       { date := "2024-02-02"
         title := "Determination published: old"
         display_title := some "B" }] := by
  decide

/-- Claim C5 (amended): provided no scraped event is an old-format synthetic
determination event (title starting "Determination published:" dated at the
matter's determination publication date), running the reconciler (including
synthetic notified/determination insertion) a second time with the same
scrape against its own output yields the same event list. -/
theorem c5_reconcile_idempotent (m : MergerRec) (scraped E : List Event)
    (H : ∀ s ∈ scraped, oldFormatFiltered m s = false) :
    reconcile m scraped (reconcile m scraped E) = reconcile m scraped E := by
  obtain ⟨T, hshape, hT⟩ := reconcile_shape m scraped E H
  have hME : mergeEvents scraped (reconcile m scraped E) = reconcile m scraped E := by
    rw [hshape]
    exact mergeEvents_of_shape scraped E T (effKeep m)
      (fun x y ht hd => effKeep_congr x y ht hd)
      (fun s hs => effKeep_true_of_oldFormat (H s hs))
      hT
  show addDetermination m (addNotification m
    (mergeEvents scraped (reconcile m scraped E))) = _
  rw [hME]
  have hAN : addNotification m (reconcile m scraped E) = reconcile m scraped E := by
    by_cases ht : truthy m.effective_notification_datetime = true
    · exact addNotification_eq_of_any
        (addDetermination_any_title (by decide) (addNotification_any ht))
    · unfold addNotification; rw [if_neg ht]
  rw [hAN]
  exact addDetermination_idem m (addNotification m (mergeEvents scraped E))

/-- Claim C5 witness: a concrete scrape with one url event against a prior
list with a vanished event; reconciling twice equals reconciling once. -/
theorem c5_reconcile_idempotent_witness :
    reconcile
      { merger_id := some "MN-2", effective_notification_datetime := some "2024-01-05" }
      [{ date := "2024-02-02", title := "b", url := some "https://b" }]
      (reconcile
        { merger_id := some "MN-2", effective_notification_datetime := some "2024-01-05" }
        [{ date := "2024-02-02", title := "b", url := some "https://b" }]
        [{ date := "2024-01-01", title := "a", url := some "https://a" }]) =
    reconcile
      { merger_id := some "MN-2", effective_notification_datetime := some "2024-01-05" }
      [{ date := "2024-02-02", title := "b", url := some "https://b" }]
      [{ date := "2024-01-01", title := "a", url := some "https://a" }] :=
  c5_reconcile_idempotent
    { merger_id := some "MN-2", effective_notification_datetime := some "2024-01-05" }
    [{ date := "2024-02-02", title := "b", url := some "https://b" }]
    [{ date := "2024-01-01", title := "a", url := some "https://a" }]
    (by decide)

/-- Advancing one day adds one to the ordinal and preserves validity. -/
theorem succDate_spec (dt : PyDate) (h : validDate dt = true) :
    toOrdinal (succDate dt) = toOrdinal dt + 1 ∧ validDate (succDate dt) = true := by
  obtain ⟨y, m, d⟩ := dt
  simp only [validDate, Bool.and_eq_true, decide_eq_true_eq] at h
  obtain ⟨⟨⟨⟨h0, h1⟩, h2⟩, h3⟩, h4⟩ := h
  unfold succDate
  by_cases hd : d < daysInMonth y m
  · rw [if_pos hd]
    constructor
    · unfold toOrdinal
      dsimp only
      omega
    · simp only [validDate, Bool.and_eq_true, decide_eq_true_eq]
      refine ⟨⟨⟨⟨h0, h1⟩, h2⟩, by omega⟩, by omega⟩
  · rw [if_neg hd]
    have hde : d = daysInMonth y m := le_antisymm h4 (not_lt.mp hd)
    by_cases hm : m < 12
    · rw [if_pos hm]
      constructor
      · subst hde
        unfold toOrdinal daysBeforeMonth daysInMonth
        by_cases hl : isLeap y = true <;>
          · interval_cases m <;> simp [hl] <;> omega
      · simp only [validDate, Bool.and_eq_true, decide_eq_true_eq]
        unfold daysInMonth
        refine ⟨⟨⟨⟨by omega, by omega⟩, by omega⟩, le_refl 1⟩, ?_⟩
        interval_cases m <;> by_cases hl : isLeap y = true <;> simp [hl]
    · rw [if_neg hm]
      have hm12 : m = 12 := by omega
      subst hm12
      have hd31 : d = 31 := by
        unfold daysInMonth at hde
        simp at hde
        omega
      subst hd31
      constructor
      · unfold toOrdinal daysBeforeMonth
        dsimp only
        by_cases hl : isLeap y = true
        · have hl2 : (y % 4 = 0 ∧ y % 100 ≠ 0) ∨ y % 400 = 0 := by
            simpa [isLeap, Bool.or_eq_true, Bool.and_eq_true, beq_iff_eq,
              bne_iff_ne] using hl
          simp [hl]
          omega
        · have hl2 : ¬((y % 4 = 0 ∧ y % 100 ≠ 0) ∨ y % 400 = 0) := by
            simpa [isLeap, Bool.or_eq_true, Bool.and_eq_true, beq_iff_eq,
              bne_iff_ne] using hl
          simp [hl]
          omega
      · simp [validDate, daysInMonth]
        omega

theorem addDays_spec (n : Nat) : ∀ (dt : PyDate), validDate dt = true →
    toOrdinal (addDays dt n) = toOrdinal dt + n ∧
    validDate (addDays dt n) = true := by
  induction n with
  | zero => intro dt h; exact ⟨by simp [addDays], h⟩
  | succ k ih =>
    intro dt h
    have hs := succDate_spec dt h
    have := ih (succDate dt) hs.2
    unfold addDays
    refine ⟨?_, this.2⟩
    rw [this.1, hs.1]
    push_cast
    ring

/-- Any seven consecutive days contain exactly five weekdays. -/
theorem seven_window (b : Int) :
    (List.range 7).countP (fun j : Nat => decide ((b + (j : Int)) % 7 < 5)) = 5 := by
  have key : ∀ j ∈ List.range 7,
      (decide ((b + (j : Int)) % 7 < 5) = true ↔
        decide ((b % 7 + (j : Int)) % 7 < 5) = true) := by
    intro j _
    simp only [decide_eq_true_eq]
    omega
  rw [List.countP_congr key]
  have hr1 : 0 ≤ b % 7 := Int.emod_nonneg b (by norm_num)
  have hr2 : b % 7 < 7 := Int.emod_lt_of_pos b (by norm_num)
  set r := b % 7 with hrdef
  clear hrdef key
  interval_cases r <;> decide

theorem weekday_count_eq (w : Int) : ∀ n : Nat,
    5 * ((n : Int) / 7) + (List.range ((n : Int) % 7).toNat).countP
        (fun i : Nat => decide ((w + (i : Int)) % 7 < 5)) =
    (List.range n).countP (fun i : Nat => decide ((w + (i : Int)) % 7 < 5)) := by
  intro n
  induction n using Nat.strong_induction_on with
  | _ n ih =>
    by_cases h7 : n < 7
    · have h1 : ((n : Int) / 7) = 0 := by omega
      have h2 : ((n : Int) % 7).toNat = n := by omega
      rw [h1, h2]
      ring
    · obtain ⟨m, rfl⟩ : ∃ m, n = m + 7 := ⟨n - 7, by omega⟩
      have hih := ih m (by omega)
      have hwin : (List.range 7).countP
          ((fun i : Nat => decide ((w + (i : Int)) % 7 < 5)) ∘ (m + ·)) = 5 := by
        refine Eq.trans (List.countP_congr ?_) (seven_window (w + (m : Int)))
        intro j _
        simp only [Function.comp_apply, decide_eq_true_eq]
        push_cast
        constructor <;> (intro; omega)
      have harith2 : (((m + 7 : Nat) : Int) % 7).toNat = (((m : Nat) : Int) % 7).toNat := by
        push_cast; omega
      rw [List.range_add, List.countP_append, List.countP_map, hwin, harith2]
      push_cast
      push_cast at hih
      omega

theorem fromisoformat_valid {s : String} {t : PyDateTime}
    (h : fromisoformat s = some t) : validDate t.date = true := by
  unfold fromisoformat at h
  dsimp only at h
  repeat' split at h
  all_goals first
    | exact Option.noConfusion h
    | (injection h with h
       rw [← h]
       simp_all)

/-- C9: the claim that for every missing, unparsable, or malformed input pair
(including a timezone-aware date paired with a naive one) the calendar
functions return an explicit None rather than letting an exception escape is
FALSE as stated: on the pair ("2025-01-01T00:00:00Z", "2025-01-05") — an
aware start and a naive end, both individually parsable — the backend
calculate_business_days raises TypeError from the loop comparison
current_date <= end, and calculate_calendar_days raises TypeError from the
subtraction end - start, because both except clauses name only ValueError
and AttributeError. (The closed-form scripts implementation is immune: it
strips tzinfo before comparing.) -/
theorem c9_mixed_awareness_typeerror_escapes :
    backend_calculate_business_days (some "2025-01-01T00:00:00Z")
      (some "2025-01-05") [] = .error .typeError ∧
    calculate_calendar_days (some "2025-01-01T00:00:00Z")
      (some "2025-01-05") = .error .typeError := ⟨rfl, rfl⟩

/-- C2 (amended): the cutoff is absent when determination_publication_date
is absent or unparsable; with a parsed determination date it is that date
plus cutoff_weeks weeks exactly when the matter is a waiver (regardless of
the determination) or the STORED accc_determination field is the literal
string "Approved" — a raw string comparison, not the normalized
determination the claim names; should_skip_merger never raises, and returns
true exactly when a cutoff exists and the reference is strictly after it,
comparing instants when both are aware and wall clocks otherwise (the aware
side is stripped when the awareness differs). -/
theorem c2_cutoff_logic (m : MergerRec) (w : Nat) (reference : PyDateTime) :
    (parse_iso_datetime m.determination_publication_date = none →
      get_cutoff_date m w = none) ∧
    (∀ dd, parse_iso_datetime m.determination_publication_date = some dd →
      get_cutoff_date m w =
        (if is_waiver_merger m || (m.accc_determination.getD "" == "Approved")
         then some (addWeeks dd w) else none)) ∧
    should_skip_merger m reference w =
      .ok ((get_cutoff_date m w).elim false (refAfterCutoff reference)) := by
  refine ⟨?_, ?_, ?_⟩
  · intro h
    unfold get_cutoff_date
    rw [h]
  · intro dd h
    unfold get_cutoff_date
    rw [h]
    dsimp only
    cases hw : is_waiver_merger m <;>
      cases hd : (m.accc_determination.getD "" == "Approved") <;> simp [hw, hd]
  · unfold should_skip_merger
    cases hg : get_cutoff_date m w with
    | none => rfl
    | some cd =>
      dsimp only [Option.elim]
      unfold pyGtDT refAfterCutoff
      cases hct : cd.tz <;> cases hrt : reference.tz <;>
        simp [hct, hrt, naiveSecs]

set_option maxRecDepth 4000 in
theorem c2_cutoff_logic_witness :
    get_cutoff_date c2m 3 = some ⟨⟨2025, 2, 5⟩, 43200, some 0⟩ ∧
    should_skip_merger c2m ⟨⟨2025, 2, 6⟩, 0, none⟩ 3 = .ok true := by
  constructor
  · have h := (c2_cutoff_logic c2m 3 ⟨⟨2025, 2, 6⟩, 0, none⟩).2.1
      ⟨⟨2025, 1, 15⟩, 43200, some 0⟩ rfl
    rw [h]
    rfl
  · have h := (c2_cutoff_logic c2m 3 ⟨⟨2025, 2, 6⟩, 0, none⟩).2.2
    rw [h]
    rfl

/-- C2 counterexample: an ordinary matter whose stored field is
"ACCC Determination Approved" — its normalized determination is "Approved",
yet get_cutoff_date yields no cutoff, because cutoff.py compares the raw
stored string to 'Approved' instead of normalizing it. -/
theorem c2_counterexample_normalized_approved_no_cutoff :
    normalize_determination (c2ma.accc_determination.getD "") = some "Approved" ∧
    (parse_iso_datetime c2ma.determination_publication_date).isSome = true ∧
    is_waiver_merger c2ma = false ∧
    get_cutoff_date c2ma 3 = none := ⟨rfl, rfl, rfl, rfl⟩

theorem countP_split {α : Type} (l : List α) (p q : α → Bool) :
    l.countP p =
      l.countP (fun x => p x && q x) + l.countP (fun x => p x && !q x) := by
  induction l with
  | nil => rfl
  | cons a t ih =>
    simp only [List.countP_cons]
    cases hp : p a <;> cases hq : q a <;> simp [hp, hq, ih] <;> omega

theorem countP_or_disjoint {α : Type} (l : List α) (p q : α → Bool)
    (h : ∀ x ∈ l, ¬(p x = true ∧ q x = true)) :
    l.countP (fun x => p x || q x) = l.countP p + l.countP q := by
  induction l with
  | nil => rfl
  | cons a t ih =>
    have ha := h a (List.mem_cons_self a t)
    have ht : ∀ x ∈ t, ¬(p x = true ∧ q x = true) :=
      fun x hx => h x (List.mem_cons_of_mem a hx)
    simp only [List.countP_cons]
    cases hp : p a <;> cases hq : q a
    · simp [hp, hq, ih ht]
    · simp [hp, hq, ih ht]
      omega
    · simp [hp, hq, ih ht]
      omega
    · exact absurd ⟨hp, hq⟩ ha

theorem countP_indicator (n j : Nat) (q : Nat → Bool) :
    (List.range n).countP (fun i => q i && decide (i = j)) =
      if j < n ∧ q j = true then 1 else 0 := by
  induction n with
  | zero => simp
  | succ m ih =>
    rw [List.range_succ, List.countP_append, ih]
    simp only [List.countP_cons, List.countP_nil]
    by_cases hjm : j = m
    · subst hjm
      cases hq : q j <;> simp [hq]
    · cases hq : q j
      · simp [hq, hjm]
        exact fun _ h => hjm h.symm
      · have : ¬(m = j) := fun h => hjm h.symm
        simp [hq, hjm, this]
        split_ifs <;> omega

theorem intRange_mem (a b y : Int) : y ∈ intRange a b ↔ a ≤ y ∧ y < b := by
  unfold intRange
  simp only [List.mem_map, List.mem_range]
  constructor
  · rintro ⟨i, hi, rfl⟩
    omega
  · rintro ⟨h1, h2⟩
    exact ⟨(y - a).toNat, by omega, by omega⟩

theorem pairwise_map_range (R : Int → Int → Prop) (a b : Int)
    (hR : ∀ x y, a ≤ x → x < y → y < b → R x y) :
    ∀ n : Nat, (∀ i : Nat, i < n → a + (i : Int) < b) →
      (List.Pairwise R ((List.range n).map (fun i : Nat => a + (i : Int)))) := by
  intro n
  induction n with
  | zero => intro _; exact List.Pairwise.nil
  | succ m ih =>
    intro hb
    rw [List.range_succ, List.map_append]
    refine List.pairwise_append.mpr
      ⟨ih (fun i hi => hb i (by omega)), List.pairwise_singleton _ _, ?_⟩
    intro x hx y hy
    simp only [List.mem_map, List.mem_range] at hx
    simp only [List.map_cons, List.map_nil, List.mem_singleton] at hy
    obtain ⟨i, hi, rfl⟩ := hx
    subst hy
    exact hR _ _ (by omega) (by omega) (hb m (by omega))

theorem intRange_pairwise (a b : Int) (R : Int → Int → Prop)
    (hR : ∀ x y, a ≤ x → x < y → y < b → R x y) :
    (intRange a b).Pairwise R := by
  unfold intRange
  exact pairwise_map_range R a b hR _ (fun i hi => by omega)

theorem sum_counts_disjoint {α : Type} (n : Nat) (W : α → Nat → Bool) :
    ∀ (l : List α),
      l.Pairwise (fun x y => ∀ i : Nat, ¬(W x i = true ∧ W y i = true)) →
      (l.map (fun y => (List.range n).countP (fun i => W y i))).sum =
        (List.range n).countP (fun i => l.any (fun y => W y i)) := by
  intro l
  induction l with
  | nil => simp
  | cons a t ih =>
    intro hp
    rw [List.pairwise_cons] at hp
    obtain ⟨hd, hp⟩ := hp
    simp only [List.map_cons, List.sum_cons, List.any_cons]
    rw [ih hp, countP_or_disjoint]
    intro x _ hx
    obtain ⟨h1, h2⟩ := hx
    obtain ⟨y, hy, hw⟩ := List.any_eq_true.mp h2
    exact hd y hy x ⟨h1, hw⟩

theorem intCount (P : Int → Bool) (c : Int) :
    ∀ (n : Nat) (a b : Int), c ≤ a → b < c + n →
    (List.range (b + 1 - a).toNat).countP (fun j : Nat => P (a + (j : Int))) =
    (List.range n).countP
      (fun i : Nat =>
        P (c + (i : Int)) && decide (a ≤ c + (i : Int) ∧ c + (i : Int) ≤ b)) := by
  intro n
  induction n with
  | zero =>
    intro a b ha hb
    have h0 : (b + 1 - a).toNat = 0 := by omega
    rw [h0]
    simp
  | succ m ih =>
    intro a b ha hb
    rw [List.range_succ, List.countP_append]
    by_cases hbm : b < c + m
    · rw [ih a b ha hbm]
      have hface : ¬(a ≤ c + (m : Int) ∧ c + (m : Int) ≤ b) := by omega
      simp [List.countP_cons, hface]
    · have hbe : b = c + m := by omega
      by_cases hab : a ≤ b
      · have hL : (b + 1 - a).toNat = (b - a).toNat + 1 := by omega
        rw [hL, List.range_succ, List.countP_append]
        have hIH := ih a (b - 1) ha (by omega)
        have hL2 : (b - 1 + 1 - a).toNat = (b - a).toNat := by omega
        rw [hL2] at hIH
        rw [hIH]
        have hcong : ∀ i ∈ List.range m,
            ((P (c + (i : Int)) &&
                decide (a ≤ c + (i : Int) ∧ c + (i : Int) ≤ b - 1)) = true) ↔
            ((P (c + (i : Int)) &&
                decide (a ≤ c + (i : Int) ∧ c + (i : Int) ≤ b)) = true) := by
          intro i hi
          rw [List.mem_range] at hi
          have hiff : (a ≤ c + (i : Int) ∧ c + (i : Int) ≤ b - 1) ↔
              (a ≤ c + (i : Int) ∧ c + (i : Int) ≤ b) := by omega
          simp [hiff]
        rw [List.countP_congr hcong]
        have e1 : a + (((b - a).toNat : Nat) : Int) = c + (m : Int) := by omega
        have e2 : a ≤ c + (m : Int) ∧ c + (m : Int) ≤ b := by omega
        simp only [List.countP_cons, List.countP_nil, Nat.zero_add]
        rw [e1]
        simp [e2]
      · have h0 : (b + 1 - a).toNat = 0 := by omega
        rw [h0]
        have hz : (List.range m).countP
            (fun i : Nat =>
              P (c + (i : Int)) && decide (a ≤ c + (i : Int) ∧ c + (i : Int) ≤ b)) = 0 := by
          rw [List.countP_eq_zero]
          intro i _
          have : ¬(a ≤ c + (i : Int) ∧ c + (i : Int) ≤ b) := by omega
          simp [this]
        have hface : ¬(a ≤ c + (m : Int) ∧ c + (m : Int) ≤ b) := by omega
        simp only [List.countP_cons, List.countP_nil, hz, List.countP_nil,
          Nat.zero_add]
        simp [hface]

theorem year_len (y : Int) (_hy : 1 ≤ y) :
    toOrdinal ⟨y + 1, 1, 1⟩ =
      toOrdinal ⟨y, 1, 1⟩ + 365 + (if isLeap y = true then 1 else 0) := by
  unfold toOrdinal daysBeforeMonth isLeap
  simp only [Bool.or_eq_true, Bool.and_eq_true, decide_eq_true_eq, bne_iff_ne,
    beq_iff_eq, ne_eq]
  norm_num
  split_ifs <;> omega

theorem ord_within_year (d : PyDate) (hv : validDate d = true) :
    toOrdinal ⟨d.y, 1, 1⟩ ≤ toOrdinal d ∧
      toOrdinal d ≤ toOrdinal ⟨d.y, 1, 1⟩ + 364 + (if isLeap d.y = true then 1 else 0) := by
  obtain ⟨y, m, d⟩ := d
  simp only [validDate, Bool.and_eq_true, decide_eq_true_eq] at hv
  obtain ⟨⟨⟨⟨h0, h1⟩, h2⟩, h3⟩, h4⟩ := hv
  unfold toOrdinal daysBeforeMonth
  simp only
  unfold daysInMonth at h4
  by_cases hL : isLeap y = true <;>
    simp only [hL, if_true, if_false, Bool.false_and, Bool.true_and] at h4 ⊢ <;>
    interval_cases m <;> simp_all <;> omega

theorem ys_mono (y : Int) (hy : 1 ≤ y) :
    ∀ k : Nat, toOrdinal ⟨y, 1, 1⟩ + 365 * k ≤ toOrdinal ⟨y + (k : Int), 1, 1⟩ := by
  intro k
  induction k with
  | zero => simp
  | succ n ih =>
    have hcast : y + ((n + 1 : Nat) : Int) = (y + (n : Int)) + 1 := by push_cast; ring
    rw [hcast, year_len (y + (n : Int)) (by omega)]
    push_cast
    split_ifs <;> omega

theorem ord_dec23 (y : Int) :
    toOrdinal ⟨y, 12, 23⟩ =
      toOrdinal ⟨y, 1, 1⟩ + 356 + (if isLeap y = true then 1 else 0) := by
  unfold toOrdinal daysBeforeMonth
  norm_num
  split_ifs <;> omega

theorem ord_jan10 (y : Int) : toOrdinal ⟨y, 1, 10⟩ = toOrdinal ⟨y, 1, 1⟩ + 9 := by
  unfold toOrdinal daysBeforeMonth
  norm_num
  omega

theorem year_le_of_ord_le (d e : PyDate) (hvd : validDate d = true)
    (hve : validDate e = true) (h : toOrdinal d ≤ toOrdinal e) : d.y ≤ e.y := by
  by_contra hgt
  push_neg at hgt
  have hdy : 1 ≤ d.y := by
    have := hvd
    unfold validDate at this
    simp only [Bool.and_eq_true, decide_eq_true_eq] at this
    exact this.1.1.1.1
  have hey : 1 ≤ e.y := by
    have := hve
    unfold validDate at this
    simp only [Bool.and_eq_true, decide_eq_true_eq] at this
    exact this.1.1.1.1
  have hmono := ys_mono (e.y + 1) (by omega) (d.y - (e.y + 1)).toNat
  have hcast : e.y + 1 + ((d.y - (e.y + 1)).toNat : Int) = d.y := by omega
  rw [hcast] at hmono
  have hwd := ord_within_year d hvd
  have hwe := ord_within_year e hve
  have hlen := year_len e.y hey
  have h1 : toOrdinal ⟨e.y + 1, 1, 1⟩ ≤ toOrdinal ⟨d.y, 1, 1⟩ := by omega
  split_ifs at hwe hlen <;> omega

set_option maxHeartbeats 1000000 in
theorem xmas_window (d : PyDate) (hv : validDate d = true) (y : Int) (hy : 1 ≤ y) :
    (toOrdinal ⟨y, 12, 23⟩ ≤ toOrdinal d ∧ toOrdinal d ≤ toOrdinal ⟨y + 1, 1, 10⟩) ↔
    (is_christmas_new_year_period d = true ∧
      y = (if d.m = 12 then d.y else d.y - 1)) := by
  obtain ⟨dy, dm, dd⟩ := d
  have hw := ord_within_year ⟨dy, dm, dd⟩ hv
  dsimp only at hw
  simp only [validDate, Bool.and_eq_true, decide_eq_true_eq] at hv
  obtain ⟨⟨⟨⟨h0, h1m⟩, h2m⟩, h3d⟩, h4d⟩ := hv
  simp only [is_christmas_new_year_period, Bool.or_eq_true, Bool.and_eq_true,
    beq_iff_eq, decide_eq_true_eq]
  rw [ord_dec23 y, ord_jan10 (y + 1)]
  have hyl := year_len y hy
  have hdiff : toOrdinal ⟨dy, dm, dd⟩ =
      toOrdinal ⟨dy, 1, 1⟩ + daysBeforeMonth dm (isLeap dy) + dd - 1 := by
    unfold toOrdinal
    simp only [daysBeforeMonth]
    norm_num
    omega
  constructor
  · rintro ⟨hlo, hhi⟩
    have hcase : dy = y ∨ dy = y + 1 := by
      by_contra hc
      push_neg at hc
      obtain ⟨hc1, hc2⟩ := hc
      rcases lt_or_gt_of_ne hc1 with hlt | hgt
      · have hm := ys_mono dy h0 (y - dy).toNat
        have hcst : dy + ((y - dy).toNat : Int) = y := by omega
        rw [hcst] at hm
        split_ifs at hw hyl <;> omega
      · have hm := ys_mono (y + 1) (by omega) (dy - (y + 1)).toNat
        have hcst : (y + 1) + ((dy - (y + 1)).toNat : Int) = dy := by omega
        rw [hcst] at hm
        split_ifs at hw hyl <;> omega
    rcases hcase with rfl | rfl
    · rw [hdiff] at hlo
      unfold daysInMonth at h4d
      clear hw hyl hhi hdiff
      have hdm : dm = 12 ∧ 23 ≤ dd := by
        cases hL : isLeap dy <;>
          interval_cases dm <;>
          (try norm_num [daysBeforeMonth, hL] at h4d hlo) <;> omega
      refine ⟨Or.inl hdm, ?_⟩
      rw [if_pos hdm.1]
    · rw [hdiff] at hhi
      unfold daysInMonth at h4d
      have hyl2 := year_len y hy
      clear hw hyl hlo hdiff
      have hdm : dm = 1 ∧ dd ≤ 10 := by
        cases hL : isLeap (y + 1) <;> cases hL2 : isLeap y <;>
          interval_cases dm <;>
          (try norm_num [daysBeforeMonth, hL, hL2] at h4d hhi hyl2) <;> omega
      refine ⟨Or.inr hdm, ?_⟩
      rw [if_neg (by omega)]
      omega
  · rintro ⟨hx, hyeq⟩
    rcases hx with ⟨hm12, hd23⟩ | ⟨hm1, hd10⟩
    · rw [if_pos hm12] at hyeq
      subst hyeq
      subst hm12
      rw [hdiff]
      unfold daysInMonth at h4d
      clear hw
      cases hL : isLeap y <;>
        (try norm_num [daysBeforeMonth, hL] at h4d hyl ⊢) <;> omega
    · have hm12 : ¬(dm = 12) := by omega
      rw [if_neg hm12] at hyeq
      have hdy2 : 2 ≤ dy := by omega
      have hyl2 := year_len (dy - 1) (by omega)
      have hcst : dy - 1 + 1 = dy := by ring
      rw [hcst] at hyl2
      subst hyeq
      subst hm1
      rw [hdiff]
      have hcst2 : dy - 1 + 1 = dy := by ring
      rw [hcst2]
      unfold daysInMonth at h4d
      clear hw hyl
      cases hL : isLeap (dy - 1) <;>
        (try norm_num [daysBeforeMonth, hL] at h4d hyl2 ⊢) <;> omega

theorem count_weekdays_eq (s e : PyDate) (h : toOrdinal s ≤ toOrdinal e) :
    count_weekdays_in_range s e =
      ((List.range (toOrdinal e - toOrdinal s + 1).toNat).countP
        (fun i : Nat => decide ((toOrdinal s + (i : Int) + 6) % 7 < 5)) : Int) := by
  unfold count_weekdays_in_range
  rw [if_neg (by omega)]
  have hkey := weekday_count_eq (pyWeekday s) (toOrdinal e - toOrdinal s + 1).toNat
  have hc1 : (((toOrdinal e - toOrdinal s + 1).toNat : Nat) : Int) =
      toOrdinal e - toOrdinal s + 1 := by omega
  rw [hc1] at hkey
  unfold pyWeekday at hkey
  have hcong : ∀ i ∈ List.range (toOrdinal e - toOrdinal s + 1).toNat,
      (decide (((toOrdinal s + 6) % 7 + (i : Int)) % 7 < 5) = true) ↔
      (decide ((toOrdinal s + (i : Int) + 6) % 7 < 5) = true) := by
    intro i _
    simp only [decide_eq_true_eq]
    omega
  rw [List.countP_congr hcong] at hkey
  have hcong2 : ∀ i ∈ List.range ((toOrdinal e - toOrdinal s + 1) % 7).toNat,
      (decide (((toOrdinal s + 6) % 7 + (i : Int)) % 7 < 5) = true) ↔
      (decide ((toOrdinal s + (i : Int) + 6) % 7 < 5) = true) := by
    intro i _
    simp only [decide_eq_true_eq]
    omega
  rw [List.countP_congr hcong2] at hkey
  dsimp only
  unfold pyWeekday
  rw [List.countP_congr hcong2]
  omega

theorem weekday_addDays (s : PyDate) (hv : validDate s = true) (i : Nat) :
    (!(pyWeekday (addDays s i) == 5 || pyWeekday (addDays s i) == 6)) =
      decide ((toOrdinal s + (i : Int) + 6) % 7 < 5) := by
  have ha := (addDays_spec i s hv).1
  unfold pyWeekday
  rw [ha]
  by_cases h5 : (toOrdinal s + (i : Int) + 6) % 7 < 5
  · simp only [h5, decide_True, Bool.not_eq_true', Bool.or_eq_false_iff,
      beq_eq_false_iff_ne, ne_eq]
    constructor <;> omega
  · have hd : decide ((toOrdinal s + (i : Int) + 6) % 7 < 5) = false := by
      simp [h5]
    rw [hd, Bool.not_eq_false']
    simp only [Bool.or_eq_true, beq_iff_eq]
    omega

theorem digitVal_digitChar (k : Int) (h0 : 0 ≤ k) (h9 : k ≤ 9) :
    digitVal (digitChar k) = k := by
  interval_cases k <;> decide

theorem digitChar_isDigit (k : Int) (h0 : 0 ≤ k) (h9 : k ≤ 9) :
    (digitChar k).isDigit = true := by
  interval_cases k <;> decide

set_option maxHeartbeats 2000000 in
theorem parseYMD_fmtYMD (d : PyDate) (hv : validDate d = true) (hy : d.y ≤ 9999) :
    parseYMD (fmtYMD d) = some d := by
  obtain ⟨y, m, dd⟩ := d
  have hb := hv
  simp only [validDate, Bool.and_eq_true, decide_eq_true_eq] at hb
  obtain ⟨⟨⟨⟨h0, h1m⟩, h2m⟩, h3d⟩, h4d⟩ := hb
  have hy9 : y ≤ 9999 := hy
  clear hy
  have hm31 : dd ≤ 31 := by
    unfold daysInMonth at h4d
    split_ifs at h4d <;> omega
  have hdy1 := digitChar_isDigit (y / 1000) (by omega) (by omega)
  have hdy2 := digitChar_isDigit (y / 100 % 10) (by omega) (by omega)
  have hdy3 := digitChar_isDigit (y / 10 % 10) (by omega) (by omega)
  have hdy4 := digitChar_isDigit (y % 10) (by omega) (by omega)
  have hdm1 := digitChar_isDigit (m / 10) (by omega) (by omega)
  have hdm2 := digitChar_isDigit (m % 10) (by omega) (by omega)
  have hdd1 := digitChar_isDigit (dd / 10) (by omega) (by omega)
  have hdd2 := digitChar_isDigit (dd % 10) (by omega) (by omega)
  have hvy1 := digitVal_digitChar (y / 1000) (by omega) (by omega)
  have hvy2 := digitVal_digitChar (y / 100 % 10) (by omega) (by omega)
  have hvy3 := digitVal_digitChar (y / 10 % 10) (by omega) (by omega)
  have hvy4 := digitVal_digitChar (y % 10) (by omega) (by omega)
  have hvm1 := digitVal_digitChar (m / 10) (by omega) (by omega)
  have hvm2 := digitVal_digitChar (m % 10) (by omega) (by omega)
  have hvd1 := digitVal_digitChar (dd / 10) (by omega) (by omega)
  have hvd2 := digitVal_digitChar (dd % 10) (by omega) (by omega)
  have hdash : ('-').isDigit = false := by decide
  unfold parseYMD fmtYMD pad4 pad2
  simp only [String.toList]
  dsimp only
  simp only [List.cons_append, List.nil_append, List.takeWhile_cons,
    List.dropWhile_cons, hdy1, hdy2, hdy3, hdy4, hdm1, hdm2, hdd1, hdd2, hdash,
    if_true, if_false, Bool.false_eq_true, List.takeWhile_nil, List.dropWhile_nil]
  simp only [List.length_cons, List.length_nil]
  norm_num
  simp only [digitsToInt, List.foldl, hvy1, hvy2, hvy3, hvy4, hvm1, hvm2, hvd1, hvd2]
  have ey : 10 * (10 * (10 * (10 * 0 + y / 1000) + y / 100 % 10) + y / 10 % 10) + y % 10 = y := by
    omega
  have em : 10 * (10 * 0 + m / 10) + m % 10 = m := by omega
  have ed : 10 * (10 * 0 + dd / 10) + dd % 10 = dd := by omega
  rw [ey, em, ed]
  rw [hv]
  simp [hy9]

set_option maxHeartbeats 2000000 in
theorem month_resolve (ya ma mb da db : Int)
    (ha1 : 1 ≤ ma) (ha2 : ma ≤ 12) (ha3 : 1 ≤ da) (ha4 : da ≤ daysInMonth ya ma)
    (hb1 : 1 ≤ mb) (hb2 : mb ≤ 12) (hb3 : 1 ≤ db) (hb4 : db ≤ daysInMonth ya mb)
    (hdbm : daysBeforeMonth ma (isLeap ya) + da =
      daysBeforeMonth mb (isLeap ya) + db) : ma = mb := by
  cases hL : isLeap ya <;> rw [hL] at hdbm <;>
    unfold daysInMonth at ha4 hb4 <;> rw [hL] at ha4 hb4 <;>
    interval_cases ma <;> interval_cases mb <;>
    (try norm_num [daysBeforeMonth] at hdbm ha4 hb4) <;> omega

theorem ord_inj (a b : PyDate) (hva : validDate a = true)
    (hvb : validDate b = true) (h : toOrdinal a = toOrdinal b) : a = b := by
  have hy1 : a.y ≤ b.y := year_le_of_ord_le a b hva hvb (le_of_eq h)
  have hy2 : b.y ≤ a.y := year_le_of_ord_le b a hvb hva (le_of_eq h.symm)
  obtain ⟨ya, ma, da⟩ := a
  obtain ⟨yb, mb, db⟩ := b
  dsimp only at hy1 hy2
  have hy : ya = yb := by omega
  subst hy
  simp only [validDate, Bool.and_eq_true, decide_eq_true_eq] at hva hvb
  obtain ⟨⟨⟨⟨_, ha1⟩, ha2⟩, ha3⟩, ha4⟩ := hva
  obtain ⟨⟨⟨⟨_, hb1⟩, hb2⟩, hb3⟩, hb4⟩ := hvb
  have hdbm : daysBeforeMonth ma (isLeap ya) + da =
      daysBeforeMonth mb (isLeap ya) + db := by
    unfold toOrdinal at h
    dsimp only at h
    omega
  have hm : ma = mb := month_resolve ya ma mb da db ha1 ha2 ha3 ha4 hb1 hb2 hb3 hb4 hdbm
  subst hm
  have hd : da = db := by omega
  rw [hd]

theorem toOrdinal_dateMax (a b : PyDate) :
    toOrdinal (dateMax a b) = max (toOrdinal a) (toOrdinal b) := by
  unfold dateMax
  split_ifs <;> omega

theorem toOrdinal_dateMin (a b : PyDate) :
    toOrdinal (dateMin a b) = min (toOrdinal a) (toOrdinal b) := by
  unfold dateMin
  split_ifs <;> omega

theorem is_business_day_eq (hol : List String) (d : PyDate) :
    is_business_day hol d =
      (!(pyWeekday d == 5 || pyWeekday d == 6) &&
       (!is_christmas_new_year_period d) && (!hol.contains (fmtYMD d))) := by
  unfold is_business_day
  cases h1 : (pyWeekday d == 5 || pyWeekday d == 6) <;>
    cases h2 : is_christmas_new_year_period d <;>
    cases h3 : hol.contains (fmtYMD d) <;> simp [h1, h2, h3]

theorem xmasOverlap_eq_countP (s e : PyDate) (hle : toOrdinal s ≤ toOrdinal e)
    (y : Int) :
    xmasOverlapCount s e y =
      (((List.range (toOrdinal e - toOrdinal s + 1).toNat).countP
        (fun i : Nat => decide ((toOrdinal s + (i : Int) + 6) % 7 < 5) &&
          decide (toOrdinal ⟨y, 12, 23⟩ ≤ toOrdinal s + (i : Int) ∧
            toOrdinal s + (i : Int) ≤ toOrdinal ⟨y + 1, 1, 10⟩))) : Int) := by
  have hmax := toOrdinal_dateMax ⟨y, 12, 23⟩ s
  have hmin := toOrdinal_dateMin ⟨y + 1, 1, 10⟩ e
  have hA1 : toOrdinal (⟨y, 12, 23⟩ : PyDate) ≤ toOrdinal (dateMax ⟨y, 12, 23⟩ s) := by
    rw [hmax]; exact le_max_left _ _
  have hA2 : toOrdinal s ≤ toOrdinal (dateMax ⟨y, 12, 23⟩ s) := by
    rw [hmax]; exact le_max_right _ _
  have hA3 : ∀ o : Int, toOrdinal (⟨y, 12, 23⟩ : PyDate) ≤ o → toOrdinal s ≤ o →
      toOrdinal (dateMax ⟨y, 12, 23⟩ s) ≤ o := by
    intro o h1 h2; rw [hmax]; exact max_le h1 h2
  have hB1 : toOrdinal (dateMin ⟨y + 1, 1, 10⟩ e) ≤ toOrdinal (⟨y + 1, 1, 10⟩ : PyDate) := by
    rw [hmin]; exact min_le_left _ _
  have hB2 : toOrdinal (dateMin ⟨y + 1, 1, 10⟩ e) ≤ toOrdinal e := by
    rw [hmin]; exact min_le_right _ _
  have hB3 : ∀ o : Int, o ≤ toOrdinal (⟨y + 1, 1, 10⟩ : PyDate) → o ≤ toOrdinal e →
      o ≤ toOrdinal (dateMin ⟨y + 1, 1, 10⟩ e) := by
    intro o h1 h2; rw [hmin]; exact le_min h1 h2
  unfold xmasOverlapCount
  by_cases hov : toOrdinal (dateMax ⟨y, 12, 23⟩ s) ≤ toOrdinal (dateMin ⟨y + 1, 1, 10⟩ e)
  · rw [if_pos hov]
    rw [count_weekdays_eq _ _ hov]
    have hIC := intCount (fun o => decide ((o + 6) % 7 < 5)) (toOrdinal s)
      (toOrdinal e - toOrdinal s + 1).toNat (toOrdinal (dateMax ⟨y, 12, 23⟩ s))
      (toOrdinal (dateMin ⟨y + 1, 1, 10⟩ e)) hA2 (by omega)
    dsimp only at hIC
    have hsh : toOrdinal (dateMin ⟨y + 1, 1, 10⟩ e) + 1 -
        toOrdinal (dateMax ⟨y, 12, 23⟩ s) =
        toOrdinal (dateMin ⟨y + 1, 1, 10⟩ e) -
        toOrdinal (dateMax ⟨y, 12, 23⟩ s) + 1 := by ring
    rw [hsh] at hIC
    rw [hIC]
    congr 1
    apply List.countP_congr
    intro i hi
    rw [List.mem_range] at hi
    have hiE : toOrdinal s + (i : Int) ≤ toOrdinal e := by omega
    simp only [Bool.and_eq_true, decide_eq_true_eq]
    constructor
    · rintro ⟨hw, h1, h2⟩
      exact ⟨hw, le_trans hA1 h1, le_trans h2 hB1⟩
    · rintro ⟨hw, h1, h2⟩
      exact ⟨hw, hA3 _ h1 (by omega), hB3 _ h2 hiE⟩
  · rw [if_neg hov]
    have hz : (List.range (toOrdinal e - toOrdinal s + 1).toNat).countP
        (fun i : Nat => decide ((toOrdinal s + (i : Int) + 6) % 7 < 5) &&
          decide (toOrdinal ⟨y, 12, 23⟩ ≤ toOrdinal s + (i : Int) ∧
            toOrdinal s + (i : Int) ≤ toOrdinal ⟨y + 1, 1, 10⟩)) = 0 := by
      rw [List.countP_eq_zero]
      intro i hi
      rw [List.mem_range] at hi
      have hiE : toOrdinal s + (i : Int) ≤ toOrdinal e := by omega
      simp only [Bool.and_eq_true, decide_eq_true_eq]
      rintro ⟨-, h1, h2⟩
      exact hov (le_trans (hA3 _ h1 (by omega)) (hB3 _ h2 hiE))
    rw [hz]
    rfl

theorem sum_map_intCast {α : Type} (l : List α) (f : α → Nat) :
    (l.map (fun x => ((f x : Nat) : Int))).sum = ((l.map f).sum : Int) := by
  induction l <;> simp_all

theorem xmasSum_eq (s e : PyDate) (hvs : validDate s = true)
    (hve : validDate e = true) (hle : toOrdinal s ≤ toOrdinal e)
    (hs2 : 2 ≤ s.y) (he9 : e.y ≤ 9998) :
    ((intRange (s.y - 1) (e.y + 1)).map (xmasOverlapCount s e)).sum =
      (((List.range (toOrdinal e - toOrdinal s + 1).toNat).countP
        (fun i : Nat => decide ((toOrdinal s + (i : Int) + 6) % 7 < 5) &&
          is_christmas_new_year_period (addDays s i))) : Int) := by
  have hcongr : (intRange (s.y - 1) (e.y + 1)).map (xmasOverlapCount s e) =
      (intRange (s.y - 1) (e.y + 1)).map (fun y =>
        (((List.range (toOrdinal e - toOrdinal s + 1).toNat).countP
          (fun i : Nat => decide ((toOrdinal s + (i : Int) + 6) % 7 < 5) &&
            decide (toOrdinal ⟨y, 12, 23⟩ ≤ toOrdinal s + (i : Int) ∧
              toOrdinal s + (i : Int) ≤ toOrdinal ⟨y + 1, 1, 10⟩))) : Int)) := by
    apply List.map_congr_left
    intro y _
    exact xmasOverlap_eq_countP s e hle y
  rw [hcongr, sum_map_intCast]
  have hsum := sum_counts_disjoint (toOrdinal e - toOrdinal s + 1).toNat
    (fun (y : Int) (i : Nat) =>
      decide ((toOrdinal s + (i : Int) + 6) % 7 < 5) &&
        decide (toOrdinal ⟨y, 12, 23⟩ ≤ toOrdinal s + (i : Int) ∧
          toOrdinal s + (i : Int) ≤ toOrdinal ⟨y + 1, 1, 10⟩))
    (intRange (s.y - 1) (e.y + 1)) ?_
  · rw [hsum]
    congr 1
    apply List.countP_congr
    intro i hi
    rw [List.mem_range] at hi
    have hsp := addDays_spec i s hvs
    obtain ⟨hso, hsv⟩ := hsp
    have hoe : toOrdinal (addDays s i) ≤ toOrdinal e := by omega
    have hys : s.y ≤ (addDays s i).y :=
      year_le_of_ord_le s (addDays s i) hvs hsv (by omega)
    have hye : (addDays s i).y ≤ e.y :=
      year_le_of_ord_le (addDays s i) e hsv hve hoe
    cases hA : decide ((toOrdinal s + (i : Int) + 6) % 7 < 5)
    · simp [hA]
    · simp only [List.any_eq_true, Bool.and_eq_true, hA, true_and]
      constructor
      · rintro ⟨y, hy, hw⟩
        rw [intRange_mem] at hy
        have hwin := (xmas_window (addDays s i) hsv y (by omega)).mp
          (by rw [hso]; exact (by simpa using hw))
        exact hwin.1
      · intro hx
        set yy := if (addDays s i).m = 12 then (addDays s i).y else (addDays s i).y - 1
          with hyy
        refine ⟨yy, ?_, ?_⟩
        · rw [intRange_mem, hyy]
          split_ifs <;> omega
        · have hwin := (xmas_window (addDays s i) hsv yy (by rw [hyy]; split_ifs <;> omega)).mpr
            ⟨hx, hyy⟩
          rw [hso] at hwin
          simpa using hwin
  · apply intRange_pairwise
    intro y1 y2 hy1 hlt hy2 i
    rintro ⟨h1, h2⟩
    simp only [Bool.and_eq_true, decide_eq_true_eq] at h1 h2
    have hj1 := ord_jan10 (y1 + 1)
    have hd2 := ord_dec23 y2
    have hm := ys_mono (y1 + 1) (by omega) (y2 - (y1 + 1)).toNat
    have hcst : (y1 + 1) + ((y2 - (y1 + 1)).toNat : Int) = y2 := by omega
    rw [hcst] at hm
    split_ifs at hd2 <;> omega

theorem parseYMD_valid {s : String} {dt : PyDate} (h : parseYMD s = some dt) :
    validDate dt = true ∧ dt.y ≤ 9999 := by
  unfold parseYMD at h
  dsimp only at h
  repeat' split at h
  all_goals first
    | exact Option.noConfusion h
    | (injection h with h
       rw [← h]
       simp_all)

theorem contains_cons {α : Type} [BEq α] (a : α) (l : List α) (x : α) :
    (a :: l).contains x = ((x == a) || l.contains x) := by
  show (a :: l).elem x = ((x == a) || l.elem x)
  rw [List.elem_cons]
  cases hx : x == a <;> simp

theorem holidayTerm_eq (s e h : PyDate) :
    holidayTerm s e h =
      if (toOrdinal s ≤ toOrdinal h ∧ toOrdinal h ≤ toOrdinal e ∧
          pyWeekday h < 5 ∧ is_christmas_new_year_period h = false)
      then 1 else 0 := by
  unfold holidayTerm
  split_ifs with ha hb <;>
    first
      | rfl
      | (exfalso
         simp only [Bool.and_eq_true, decide_eq_true_eq, Bool.not_eq_true'] at ha
         tauto)

set_option maxHeartbeats 1000000 in
theorem holTerm_count (s e : PyDate) (hvs : validDate s = true)
    (hve : validDate e = true) (hle : toOrdinal s ≤ toOrdinal e)
    (he9 : e.y ≤ 9998) (hd : PyDate) (hhv : validDate hd = true)
    (hhy : hd.y ≤ 9999) (hstr : String) (hfmt : fmtYMD hd = hstr) :
    (((List.range (toOrdinal e - toOrdinal s + 1).toNat).countP
      (fun i : Nat =>
        (decide ((toOrdinal s + (i : Int) + 6) % 7 < 5) &&
          !is_christmas_new_year_period (addDays s i)) &&
        (fmtYMD (addDays s i) == hstr))) : Int) = holidayTerm s e hd := by
  have hrt := parseYMD_fmtYMD hd hhv hhy
  by_cases hin : toOrdinal s ≤ toOrdinal hd ∧ toOrdinal hd ≤ toOrdinal e
  · have hj0 : ((toOrdinal hd - toOrdinal s).toNat : Int) =
        toOrdinal hd - toOrdinal s := by omega
    have hdj : addDays s (toOrdinal hd - toOrdinal s).toNat = hd := by
      have hsp := addDays_spec (toOrdinal hd - toOrdinal s).toNat s hvs
      exact ord_inj _ _ hsp.2 hhv (by omega)
    have hcong : ∀ i ∈ List.range (toOrdinal e - toOrdinal s + 1).toNat,
        (((decide ((toOrdinal s + (i : Int) + 6) % 7 < 5) &&
            !is_christmas_new_year_period (addDays s i)) &&
          (fmtYMD (addDays s i) == hstr)) = true) ↔
        (((decide ((toOrdinal s + (i : Int) + 6) % 7 < 5) &&
            !is_christmas_new_year_period (addDays s i)) &&
          decide (i = (toOrdinal hd - toOrdinal s).toNat)) = true) := by
      intro i hi
      rw [List.mem_range] at hi
      have hsp := addDays_spec i s hvs
      have hiy : (addDays s i).y ≤ 9999 :=
        le_trans (year_le_of_ord_le (addDays s i) e hsp.2 hve (by omega)) (by omega)
      have hrti := parseYMD_fmtYMD (addDays s i) hsp.2 hiy
      simp only [Bool.and_eq_true, beq_iff_eq, decide_eq_true_eq]
      constructor
      · rintro ⟨hb, hf⟩
        refine ⟨hb, ?_⟩
        rw [hf, ← hfmt, hrt] at hrti
        have hde : addDays s i = hd := Option.some.inj hrti.symm
        have hoi := congrArg toOrdinal hde
        rw [hsp.1] at hoi
        omega
      · rintro ⟨hb, hieq⟩
        subst hieq
        rw [hdj] at hb ⊢
        rw [hfmt]
        exact ⟨hb, rfl⟩
    rw [List.countP_congr hcong, countP_indicator, hdj]
    have hpw : pyWeekday hd =
        (toOrdinal s + ((toOrdinal hd - toOrdinal s).toNat : Int) + 6) % 7 := by
      unfold pyWeekday
      omega
    rw [holidayTerm_eq]
    rw [apply_ite (fun n : Nat => (n : Int))]
    by_cases hc : ((toOrdinal hd - toOrdinal s).toNat <
        (toOrdinal e - toOrdinal s + 1).toNat ∧
        (decide ((toOrdinal s + ((toOrdinal hd - toOrdinal s).toNat : Int) + 6) % 7 < 5) &&
          !is_christmas_new_year_period hd) = true)
    · have h2c : toOrdinal s ≤ toOrdinal hd ∧ toOrdinal hd ≤ toOrdinal e ∧
          pyWeekday hd < 5 ∧ is_christmas_new_year_period hd = false := by
        obtain ⟨hj, hq⟩ := hc
        simp only [Bool.and_eq_true, decide_eq_true_eq, Bool.not_eq_true'] at hq
        exact ⟨hin.1, hin.2, by rw [hpw]; exact hq.1, hq.2⟩
      rw [if_pos hc, if_pos h2c]
      norm_num
    · have h2c : ¬(toOrdinal s ≤ toOrdinal hd ∧ toOrdinal hd ≤ toOrdinal e ∧
          pyWeekday hd < 5 ∧ is_christmas_new_year_period hd = false) := by
        intro hcon
        apply hc
        obtain ⟨hx1, hx2, hx3, hx4⟩ := hcon
        refine ⟨by omega, ?_⟩
        simp only [Bool.and_eq_true, decide_eq_true_eq, Bool.not_eq_true']
        exact ⟨by rw [← hpw]; exact hx3, hx4⟩
      rw [if_neg hc, if_neg h2c]
      norm_num
  · have hz : (List.range (toOrdinal e - toOrdinal s + 1).toNat).countP
        (fun i : Nat =>
          (decide ((toOrdinal s + (i : Int) + 6) % 7 < 5) &&
            !is_christmas_new_year_period (addDays s i)) &&
          (fmtYMD (addDays s i) == hstr)) = 0 := by
      rw [List.countP_eq_zero]
      intro i hi
      rw [List.mem_range] at hi
      have hsp := addDays_spec i s hvs
      have hiy : (addDays s i).y ≤ 9999 :=
        le_trans (year_le_of_ord_le (addDays s i) e hsp.2 hve (by omega)) (by omega)
      have hrti := parseYMD_fmtYMD (addDays s i) hsp.2 hiy
      simp only [Bool.and_eq_true, beq_iff_eq, decide_eq_true_eq]
      rintro ⟨-, hf⟩
      rw [hf, ← hfmt, hrt] at hrti
      have hde : addDays s i = hd := Option.some.inj hrti.symm
      have hoi := congrArg toOrdinal hde
      rw [hsp.1] at hoi
      omega
    rw [hz]
    unfold holidayTerm
    rw [if_neg]
    · rfl
    · intro hcon
      simp only [Bool.and_eq_true, decide_eq_true_eq] at hcon
      exact hin ⟨hcon.1.1.1, hcon.1.1.2⟩

theorem holSum_eq (s e : PyDate) (hvs : validDate s = true)
    (hve : validDate e = true) (hle : toOrdinal s ≤ toOrdinal e)
    (he9 : e.y ≤ 9998) :
    ∀ hol : List String, hol.Nodup →
      (∀ h ∈ hol, ∃ hd, parseYMD h = some hd ∧ fmtYMD hd = h) →
      (hol.map (fun hs => match parseYMD hs with
          | some hd => holidayTerm s e hd
          | none => 0)).sum =
        (((List.range (toOrdinal e - toOrdinal s + 1).toNat).countP
          (fun i : Nat =>
            (decide ((toOrdinal s + (i : Int) + 6) % 7 < 5) &&
              !is_christmas_new_year_period (addDays s i)) &&
            hol.contains (fmtYMD (addDays s i)))) : Int) := by
  intro hol
  induction hol with
  | nil =>
    intro _ _
    simp
  | cons h t ih =>
    intro hnd hcan
    rw [List.nodup_cons] at hnd
    obtain ⟨hnotmem, hndt⟩ := hnd
    obtain ⟨hd, hparse, hfmt⟩ := hcan h (List.mem_cons_self h t)
    obtain ⟨hdv, hdy⟩ := parseYMD_valid hparse
    simp only [List.map_cons, List.sum_cons]
    rw [ih hndt (fun x hx => hcan x (List.mem_cons_of_mem h hx)), hparse]
    have hcc : ∀ i ∈ List.range (toOrdinal e - toOrdinal s + 1).toNat,
        (((decide ((toOrdinal s + (i : Int) + 6) % 7 < 5) &&
            !is_christmas_new_year_period (addDays s i)) &&
          (h :: t).contains (fmtYMD (addDays s i))) = true) ↔
        ((((decide ((toOrdinal s + (i : Int) + 6) % 7 < 5) &&
            !is_christmas_new_year_period (addDays s i)) &&
          (fmtYMD (addDays s i) == h)) ||
          ((decide ((toOrdinal s + (i : Int) + 6) % 7 < 5) &&
            !is_christmas_new_year_period (addDays s i)) &&
          t.contains (fmtYMD (addDays s i)))) = true) := by
      intro i _
      rw [contains_cons, Bool.and_or_distrib_left]
    rw [List.countP_congr hcc, countP_or_disjoint]
    · push_cast
      rw [holTerm_count s e hvs hve hle he9 hd hdv hdy h hfmt]
    · rintro i _ ⟨h1, h2⟩
      simp only [Bool.and_eq_true, beq_iff_eq] at h1 h2
      apply hnotmem
      have hmem : t.contains h = true := by rw [← h1.2]; exact h2.2
      exact List.elem_iff.mp hmem

theorem static_core (s e : PyDate) (hvs : validDate s = true)
    (hve : validDate e = true) (hle : toOrdinal s ≤ toOrdinal e)
    (hs2 : 2 ≤ s.y) (he9 : e.y ≤ 9998) (hol : List String) (hnd : hol.Nodup)
    (hcan : ∀ h ∈ hol, ∃ hd, parseYMD h = some hd ∧ fmtYMD hd = h) :
    count_weekdays_in_range s e
      - ((intRange (s.y - 1) (e.y + 1)).map (xmasOverlapCount s e)).sum
      - (hol.map (fun hs => match parseYMD hs with
          | some hd => holidayTerm s e hd
          | none => 0)).sum = specBusinessCount hol s e := by
  have hA := count_weekdays_eq s e hle
  have hX := xmasSum_eq s e hvs hve hle hs2 he9
  have hH := holSum_eq s e hvs hve hle he9 hol hnd hcan
  rw [hA, hX, hH]
  unfold specBusinessCount
  have hbp : ∀ i ∈ List.range (toOrdinal e - toOrdinal s + 1).toNat,
      (is_business_day hol (addDays s i) = true) ↔
      ((((decide ((toOrdinal s + (i : Int) + 6) % 7 < 5) &&
          !is_christmas_new_year_period (addDays s i)) &&
        !hol.contains (fmtYMD (addDays s i)))) = true) := by
    intro i _
    rw [is_business_day_eq, weekday_addDays s hvs i]
  rw [List.countP_congr hbp]
  have h1 := countP_split (List.range (toOrdinal e - toOrdinal s + 1).toNat)
    (fun i : Nat => decide ((toOrdinal s + (i : Int) + 6) % 7 < 5))
    (fun i : Nat => is_christmas_new_year_period (addDays s i))
  have h2 := countP_split (List.range (toOrdinal e - toOrdinal s + 1).toNat)
    (fun i : Nat => decide ((toOrdinal s + (i : Int) + 6) % 7 < 5) &&
      !is_christmas_new_year_period (addDays s i))
    (fun i : Nat => hol.contains (fmtYMD (addDays s i)))
  omega

theorem pyFromIsoZ_nonempty {sd : String} {t : PyDateTime}
    (h : pyFromIsoZ sd = some t) : sd.isEmpty = false := by
  cases hs : sd.isEmpty
  · rfl
  · exfalso
    rw [String.isEmpty_iff] at hs
    subst hs
    exact Option.noConfusion h

theorem canonicalHolidays_spec {hol : List String}
    (h : canonicalHolidays hol = true) :
    ∀ x ∈ hol, ∃ hd, parseYMD x = some hd ∧ fmtYMD hd = x := by
  intro x hx
  unfold canonicalHolidays at h
  rw [List.all_eq_true] at h
  have hh := h x hx
  cases hp : parseYMD x with
  | none => rw [hp] at hh; exact Bool.noConfusion hh
  | some hd =>
    rw [hp] at hh
    exact ⟨hd, rfl, by simpa using hh⟩

theorem static_eval (sd ed : String) (hol : List String) (sdt edt : PyDateTime)
    (hps : pyFromIsoZ sd = some sdt) (hpe : pyFromIsoZ ed = some edt)
    (hnd : hol.Nodup) (hcan : canonicalHolidays hol = true)
    (hle : toOrdinal sdt.date ≤ toOrdinal edt.date)
    (hs2 : 2 ≤ sdt.date.y) (he9 : edt.date.y ≤ 9998) :
    calculate_business_days_static (some sd) (some ed) hol =
      some (specBusinessCount hol sdt.date edt.date) := by
  have hvs : validDate sdt.date = true := fromisoformat_valid hps
  have hve : validDate edt.date = true := fromisoformat_valid hpe
  have hcan2 := canonicalHolidays_spec hcan
  unfold calculate_business_days_static
  have hcond : ¬((!(truthy (some sd) && truthy (some ed))) = true) := by
    rw [show truthy (some sd) = !sd.isEmpty from rfl,
      show truthy (some ed) = !ed.isEmpty from rfl,
      pyFromIsoZ_nonempty hps, pyFromIsoZ_nonempty hpe]
    exact fun hcc => Bool.noConfusion hcc
  rw [if_neg hcond]
  rw [Option.getD_some, Option.getD_some]
  rw [hps, hpe]
  dsimp only
  rw [if_neg (by omega)]
  rw [if_neg (by
    rw [Bool.not_eq_true, List.any_eq_false]
    intro y hy
    rw [intRange_mem] at hy
    simp only [decide_eq_true_eq, Bool.or_eq_true]
    push_neg
    omega)]
  rw [if_neg (by
    rw [Bool.not_eq_true, List.any_eq_false]
    intro x hx
    obtain ⟨hd, hp, _⟩ := hcan2 x hx
    simp [hp])]
  rw [static_core sdt.date edt.date hvs hve hle hs2 he9 hol hnd hcan2]
  have hnn : 0 ≤ specBusinessCount hol sdt.date edt.date := by
    unfold specBusinessCount
    positivity
  rw [max_eq_left hnn]

theorem scanGo_eval (hol : List String) (eD : PyDate) (tz : Option Int) :
    ∀ (fuel : Nat) (cur : PyDate), validDate cur = true →
      (toOrdinal eD - toOrdinal cur + 1).toNat ≤ fuel →
      scanGo hol ⟨eD, 0, tz⟩ fuel ⟨cur, 0, tz⟩ =
        .ok (specBusinessCount hol cur eD) := by
  intro fuel
  induction fuel with
  | zero =>
    intro cur hv hf
    have hcmp : ∃ b, pyLeDT ⟨cur, 0, tz⟩ ⟨eD, 0, tz⟩ = .ok b := by
      cases tz <;> exact ⟨_, rfl⟩
    obtain ⟨b, hb⟩ := hcmp
    simp only [scanGo]
    rw [hb]
    unfold specBusinessCount
    rw [show (toOrdinal eD - toOrdinal cur + 1).toNat = 0 by omega]
    rfl
  | succ f ih =>
    intro cur hv hf
    simp only [scanGo]
    by_cases hce : toOrdinal cur ≤ toOrdinal eD
    · have hcmp : pyLeDT ⟨cur, 0, tz⟩ ⟨eD, 0, tz⟩ = .ok true := by
        cases tz <;> simp [pyLeDT, naiveSecs] <;> omega
      rw [hcmp]
      have hss := succDate_spec cur hv
      have hrec := ih (succDate cur) hss.2 (by omega)
      rw [show addOneDay ⟨cur, 0, tz⟩ = ⟨succDate cur, 0, tz⟩ from rfl]
      rw [hrec]
      dsimp only
      congr 1
      unfold specBusinessCount
      have hn : (toOrdinal eD - toOrdinal cur + 1).toNat =
          (toOrdinal eD - toOrdinal (succDate cur) + 1).toNat + 1 := by omega
      rw [hn, List.range_succ_eq_map, List.countP_cons, List.countP_map]
      have hcongr : ∀ i ∈ List.range (toOrdinal eD - toOrdinal (succDate cur) + 1).toNat,
          ((is_business_day hol (addDays cur (Nat.succ i))) = true) ↔
          ((is_business_day hol (addDays (succDate cur) i)) = true) := by
        intro i _
        rw [show addDays cur (Nat.succ i) = addDays (succDate cur) i from rfl]
      push_cast
      rw [show (fun i : Nat => is_business_day hol (addDays cur i)) ∘ Nat.succ =
          fun i : Nat => is_business_day hol (addDays cur (Nat.succ i)) from rfl]
      rw [List.countP_congr hcongr]
      rw [show addDays cur 0 = cur from rfl]
      cases hbd : is_business_day hol cur <;> (simp [hbd]; try ring)
    · have hcmp : pyLeDT ⟨cur, 0, tz⟩ ⟨eD, 0, tz⟩ = .ok false := by
        cases tz <;> simp [pyLeDT, naiveSecs] <;> omega
      rw [hcmp]
      unfold specBusinessCount
      rw [show (toOrdinal eD - toOrdinal cur + 1).toNat = 0 by omega]
      rfl

theorem backend_eval (sd ed : String) (hol : List String) (sdt edt : PyDateTime)
    (hps : pyFromIsoZ sd = some sdt) (hpe : pyFromIsoZ ed = some edt)
    (htz : sdt.tz = edt.tz) :
    backend_calculate_business_days (some sd) (some ed) hol =
      .ok (some (specBusinessCount hol sdt.date edt.date)) := by
  have hvs : validDate sdt.date = true := fromisoformat_valid hps
  unfold backend_calculate_business_days
  have hcond : ¬((!(truthy (some sd) && truthy (some ed))) = true) := by
    rw [show truthy (some sd) = !sd.isEmpty from rfl,
      show truthy (some ed) = !ed.isEmpty from rfl,
      pyFromIsoZ_nonempty hps, pyFromIsoZ_nonempty hpe]
    exact fun hcc => Bool.noConfusion hcc
  rw [if_neg hcond]
  rw [Option.getD_some, Option.getD_some]
  rw [hps, hpe]
  dsimp only
  rw [htz]
  rw [scanGo_eval hol edt.date edt.tz _ sdt.date hvs (by omega)]

theorem static_zero (sd ed : String) (hol : List String) (sdt edt : PyDateTime)
    (hps : pyFromIsoZ sd = some sdt) (hpe : pyFromIsoZ ed = some edt)
    (hord : toOrdinal edt.date < toOrdinal sdt.date) :
    calculate_business_days_static (some sd) (some ed) hol = some 0 := by
  unfold calculate_business_days_static
  have hcond : ¬((!(truthy (some sd) && truthy (some ed))) = true) := by
    rw [show truthy (some sd) = !sd.isEmpty from rfl,
      show truthy (some ed) = !ed.isEmpty from rfl,
      pyFromIsoZ_nonempty hps, pyFromIsoZ_nonempty hpe]
    exact fun hcc => Bool.noConfusion hcc
  rw [if_neg hcond]
  rw [Option.getD_some, Option.getD_some]
  rw [hps, hpe]
  dsimp only
  rw [if_pos (by omega)]

theorem specCount_zero (hol : List String) (s e : PyDate)
    (h : toOrdinal e < toOrdinal s) : specBusinessCount hol s e = 0 := by
  unfold specBusinessCount
  rw [show (toOrdinal e - toOrdinal s + 1).toNat = 0 by omega]
  rfl

/-- C3 (amended): for parsable inputs the closed-form calculate_business_days
depends only on the parsed dates (times and offsets are stripped), returns 0
whenever end < start, and — provided the listed holidays are canonical
distinct %Y-%m-%d strings and the interval stays inside Python's year range
(2 ≤ start year, end year ≤ 9998, else the datetime(year, 12, 23)
construction in the closure loop raises and the function returns None) —
counts exactly the business days of the closed interval [start, end]; the
four literal cases from the spec all hold with 2025-03-10 as the holiday
set. -/
theorem c3_static_business_days :
    (∀ (sd ed : String) (hol : List String) (sdt edt : PyDateTime),
      pyFromIsoZ sd = some sdt → pyFromIsoZ ed = some edt →
      hol.Nodup → canonicalHolidays hol = true →
      (toOrdinal edt.date < toOrdinal sdt.date →
        calculate_business_days_static (some sd) (some ed) hol = some 0) ∧
      (toOrdinal sdt.date ≤ toOrdinal edt.date → 2 ≤ sdt.date.y →
        edt.date.y ≤ 9998 →
        calculate_business_days_static (some sd) (some ed) hol =
          some (specBusinessCount hol sdt.date edt.date))) ∧
    calculate_business_days_static (some "2025-03-03") (some "2025-03-07")
      ["2025-03-10"] = some 5 ∧
    calculate_business_days_static (some "2025-03-03") (some "2025-03-10")
      ["2025-03-10"] = some 5 ∧
    calculate_business_days_static (some "2025-03-07") (some "2025-03-11")
      ["2025-03-10"] = some 2 ∧
    calculate_business_days_static (some "2025-12-22") (some "2026-01-12")
      ["2025-03-10"] = some 2 := by
  refine ⟨?_, by rfl, by rfl, by rfl, by rfl⟩
  intro sd ed hol sdt edt hps hpe hnd hcan
  constructor
  · intro hord
    exact static_zero sd ed hol sdt edt hps hpe hord
  · intro hle hs2 he9
    exact static_eval sd ed hol sdt edt hps hpe hnd hcan hle hs2 he9

set_option maxRecDepth 10000 in
theorem c3_static_business_days_witness :
    calculate_business_days_static (some "2025-03-03") (some "2025-03-07")
      ["2025-03-10"] =
      some (specBusinessCount ["2025-03-10"] ⟨2025, 3, 3⟩ ⟨2025, 3, 7⟩) :=
  ((c3_static_business_days.1 "2025-03-03" "2025-03-07" ["2025-03-10"]
    ⟨⟨2025, 3, 3⟩, 0, none⟩ ⟨⟨2025, 3, 7⟩, 0, none⟩ rfl rfl
    (by decide) (by rfl)).2 (by decide) (by decide) (by decide))

set_option maxRecDepth 10000 in
/-- C3 counterexample: "for every pair of parsable start/end inputs" is too
strong — the inputs 0001-02-01 and 0001-02-02 both parse, the interval
contains two business days, yet the function returns None, because the
closure-window loop constructs datetime(0, 12, 23), which raises ValueError
(year 0 is below Python's MINYEAR) and is swallowed by the except clause. -/
theorem c3_counterexample_year_edge :
    (pyFromIsoZ "0001-02-01").isSome = true ∧
    (pyFromIsoZ "0001-02-02").isSome = true ∧
    specBusinessCount [] ⟨1, 2, 1⟩ ⟨1, 2, 2⟩ = 2 ∧
    calculate_business_days_static (some "0001-02-01") (some "0001-02-02") [] =
      none := ⟨rfl, rfl, rfl, rfl⟩

set_option maxRecDepth 10000 in
/-- C4 (amended): the closed-form and day-by-day business-day implementations
agree — backend returns .ok of exactly the static result — provided the two
parsed datetimes have the SAME utcoffset (both naive, or both aware with
equal offsets; the backend compares instants while the static version strips
tzinfo, so unequal offsets diverge and mixed awareness raises TypeError in
the backend only), the holiday list is canonical and duplicate-free, and the
interval stays inside the static year range (2 ≤ start year,
end year ≤ 9998). -/
theorem c4_closed_form_matches_scan (sd ed : String) (hol : List String)
    (sdt edt : PyDateTime) (hps : pyFromIsoZ sd = some sdt)
    (hpe : pyFromIsoZ ed = some edt) (htz : sdt.tz = edt.tz)
    (hnd : hol.Nodup) (hcan : canonicalHolidays hol = true)
    (hs2 : 2 ≤ sdt.date.y) (he9 : edt.date.y ≤ 9998) :
    backend_calculate_business_days (some sd) (some ed) hol =
      .ok (calculate_business_days_static (some sd) (some ed) hol) := by
  rw [backend_eval sd ed hol sdt edt hps hpe htz]
  by_cases hord : toOrdinal sdt.date ≤ toOrdinal edt.date
  · rw [static_eval sd ed hol sdt edt hps hpe hnd hcan hord hs2 he9]
  · rw [static_zero sd ed hol sdt edt hps hpe (by omega),
      specCount_zero hol sdt.date edt.date (by omega)]

set_option maxRecDepth 10000 in
theorem c4_closed_form_matches_scan_witness :
    backend_calculate_business_days (some "2025-03-03") (some "2025-03-07")
      ["2025-03-10"] =
      .ok (calculate_business_days_static (some "2025-03-03")
        (some "2025-03-07") ["2025-03-10"]) :=
  c4_closed_form_matches_scan "2025-03-03" "2025-03-07" ["2025-03-10"]
    ⟨⟨2025, 3, 3⟩, 0, none⟩ ⟨⟨2025, 3, 7⟩, 0, none⟩ rfl rfl rfl
    (by decide) (by rfl) (by decide) (by decide)

set_option maxRecDepth 10000 in
/-- C4 counterexample: two valid, parsable inputs on which the two
implementations return DIFFERENT counts: with an aware start at +00:00 and
an aware end at +11:00 on the same calendar day, the static version strips
tzinfo and counts the one business day, while the backend compares instants
(midnight+11:00 is an earlier instant than midnight+00:00), never enters the
loop, and returns 0. -/
theorem c4_counterexample_unequal_offsets :
    calculate_business_days_static (some "2025-03-03T00:00:00+00:00")
      (some "2025-03-03T10:00:00+11:00") [] = some 1 ∧
    backend_calculate_business_days (some "2025-03-03T00:00:00+00:00")
      (some "2025-03-03T10:00:00+11:00") [] = .ok (some 0) := ⟨rfl, rfl⟩
